import Mathlib

/-
  Verification of the dispatch/scheduling core of the ambulance fleet
  simulator (src/hospital/main.cpp).

  Shallow embedding conventions:
  - C++ float and double values are modelled by exact rationals.  All
    comparisons the program makes on Euclidean distances have the shape
    sqrtf(dx*dx + dy*dy) < c with c nonnegative; since the square root is
    strictly monotone on nonnegative reals, such a comparison is modelled
    exactly by the squared-distance comparison dx*dx + dy*dy < c*c.
  - C++ int fields are modelled by integers, std::string by String.
  - std::priority_queue with the EmergencyCompare comparator is modelled
    by the list of its elements; top/pop returns a least element under
    the lexicographic (priority, createdAt) key.  Which element of an
    exact tie (equal priority and equal createdAt) the concrete binary
    heap yields is unspecified in C++; here the first occurrence is
    taken, a choice that no claim observes.
  - Rendering-only fields (colors, bounds, status strings) are omitted.
-/

set_option maxHeartbeats 1000000

/-- Models raylib Vector2 restricted to the logic of the core: a point of
the plane with exact rational coordinates. -/
structure Point where
  x : ℚ
  y : ℚ
deriving DecidableEq, Repr

/-- Squared Euclidean distance between two points.  The source computes
sqrtf(dx*dx + dy*dy); every use compares it against a nonnegative bound,
so the squared form is an exact model. -/
def distSq (a b : Point) : ℚ :=
  (a.x - b.x) * (a.x - b.x) + (a.y - b.y) * (a.y - b.y)

/-- Models PatientInfo (main.cpp lines 78-85). -/
structure PatientInfo where
  name : String
  age : ℤ
  severity : String
  desc : String
  houseNumber : ℤ
deriving DecidableEq, Repr

/-- Models Emergency (main.cpp lines 87-95). -/
structure Emergency where
  id : ℤ
  patient : PatientInfo
  location : Point
  priority : ℤ
  createdAt : ℚ
  assignedHospital : ℤ
deriving DecidableEq, Repr

/-- Models EmergencyCompare::operator() (main.cpp lines 97-105): the
strict-less comparator handed to std::priority_queue.  It returns true
when a is ordered below b in the heap, i.e. when b is the more urgent
(lower priority number, then older createdAt). -/
def emergencyCompare (a b : Emergency) : Bool :=
  if a.priority ≠ b.priority then decide (a.priority > b.priority)
  else decide (a.createdAt > b.createdAt)

/-- The weak order under which the backlog is sorted: priority ascending,
then createdAt ascending.  This is the complement of emergencyCompare. -/
def lexLe (a b : Emergency) : Prop :=
  a.priority < b.priority ∨ (a.priority = b.priority ∧ a.createdAt ≤ b.createdAt)

instance (a b : Emergency) : Decidable (lexLe a b) := by
  unfold lexLe; infer_instance

theorem emergencyCompare_false_iff (a b : Emergency) :
    emergencyCompare a b = false ↔ lexLe a b := by
  unfold emergencyCompare lexLe
  by_cases h : a.priority = b.priority
  · simp [h]
  · simp [h]
    omega

theorem lexLe_of_emergencyCompare {a b : Emergency}
    (h : emergencyCompare a b = true) : lexLe b a := by
  unfold emergencyCompare at h
  unfold lexLe
  by_cases hp : a.priority = b.priority
  · simp [hp] at h
    exact Or.inr ⟨hp.symm, le_of_lt h⟩
  · simp [hp] at h
    exact Or.inl h

/-- Models std::priority_queue::top together with pop on the modelled
element list: returns a least element under the (priority, createdAt)
key and the remaining elements.  Returns none exactly on the empty
queue. -/
def popBest : List Emergency → Option (Emergency × List Emergency)
  | [] => none
  | x :: xs =>
    match popBest xs with
    | none => some (x, xs)
    | some (b, r) => if emergencyCompare x b then some (b, x :: r) else some (x, xs)

theorem popBest_nil : popBest [] = none := rfl

theorem popBest_none_iff (q : List Emergency) : popBest q = none ↔ q = [] := by
  cases q with
  | nil => simp [popBest]
  | cons x xs =>
    simp only [popBest]
    cases h : popBest xs with
    | none => simp
    | some p =>
      obtain ⟨b, r⟩ := p
      by_cases hc : emergencyCompare x b <;> simp [hc]

theorem popBest_length {q : List Emergency} {e : Emergency} {r : List Emergency}
    (h : popBest q = some (e, r)) : r.length + 1 = q.length := by
  induction q generalizing e r with
  | nil => simp [popBest] at h
  | cons x xs ih =>
    simp only [popBest] at h
    cases hx : popBest xs with
    | none =>
      rw [hx] at h
      cases h
      rfl
    | some p =>
      obtain ⟨b, rr⟩ := p
      rw [hx] at h
      by_cases hc : emergencyCompare x b
      · simp [hc] at h
        obtain ⟨hb, hr⟩ := h
        subst hb hr
        simp [← ih hx]
      · simp [hc] at h
        obtain ⟨hb, hr⟩ := h
        subst hb hr
        rfl

theorem popBest_perm {q : List Emergency} {e : Emergency} {r : List Emergency}
    (h : popBest q = some (e, r)) : q.Perm (e :: r) := by
  induction q generalizing e r with
  | nil => simp [popBest] at h
  | cons x xs ih =>
    simp only [popBest] at h
    cases hx : popBest xs with
    | none =>
      rw [hx] at h
      cases h
      exact List.Perm.refl _
    | some p =>
      obtain ⟨b, rr⟩ := p
      rw [hx] at h
      by_cases hc : emergencyCompare x b
      · simp [hc] at h
        obtain ⟨hb, hr⟩ := h
        subst hb
        subst hr
        exact ((ih hx).cons x).trans (List.Perm.swap _ x rr)
      · simp [hc] at h
        obtain ⟨hb, hr⟩ := h
        subst hb
        subst hr
        exact List.Perm.refl _

theorem lexLe_refl (a : Emergency) : lexLe a a := Or.inr ⟨rfl, le_refl _⟩

theorem lexLe_trans {a b c : Emergency} (h1 : lexLe a b) (h2 : lexLe b c) :
    lexLe a c := by
  unfold lexLe at h1 h2 ⊢
  rcases h1 with h1 | ⟨h1, h1c⟩ <;> rcases h2 with h2 | ⟨h2, h2c⟩
  · exact Or.inl (h1.trans h2)
  · exact Or.inl (by rw [← h2]; exact h1)
  · exact Or.inl (by rw [h1]; exact h2)
  · exact Or.inr ⟨h1.trans h2, h1c.trans h2c⟩

theorem popBest_min {q : List Emergency} {e : Emergency} {r : List Emergency}
    (h : popBest q = some (e, r)) : ∀ x ∈ q, lexLe e x := by
  induction q generalizing e r with
  | nil => simp [popBest] at h
  | cons x xs ih =>
    simp only [popBest] at h
    cases hx : popBest xs with
    | none =>
      rw [hx] at h
      cases h
      intro y hy
      rcases List.mem_cons.mp hy with hy | hy
      · exact hy ▸ lexLe_refl _
      · rw [(popBest_none_iff xs).mp hx] at hy
        simp at hy
    | some p =>
      obtain ⟨b, rr⟩ := p
      rw [hx] at h
      by_cases hc : emergencyCompare x b
      · simp [hc] at h
        obtain ⟨hb, hr⟩ := h
        subst hb
        intro y hy
        rcases List.mem_cons.mp hy with hy | hy
        · exact hy ▸ lexLe_of_emergencyCompare hc
        · exact ih hx y hy
      · simp [hc] at h
        obtain ⟨hb, hr⟩ := h
        subst hb
        intro y hy
        rcases List.mem_cons.mp hy with hy | hy
        · exact hy ▸ lexLe_refl _
        · exact lexLe_trans ((emergencyCompare_false_iff x b).mp (Bool.not_eq_true _ ▸ hc))
            (ih hx y hy)

/-- Models Hospital::peekAllPending (main.cpp lines 265-275): copies the
queue and pops until empty, so it lists the backlog best-first without
mutating the queue. -/
def peekAll (q : List Emergency) : List Emergency :=
  match hq : popBest q with
  | none => []
  | some (e, r) => e :: peekAll r
termination_by q.length
decreasing_by
  have := popBest_length hq
  omega

theorem peekAll_nil : peekAll [] = [] := by
  unfold peekAll
  rfl

theorem peekAll_of_popBest {q : List Emergency} {e : Emergency} {r : List Emergency}
    (h : popBest q = some (e, r)) : peekAll q = e :: peekAll r := by
  conv_lhs => unfold peekAll
  split
  · next heq => rw [heq] at h; cases h
  · next e2 r2 heq =>
    rw [h] at heq
    cases heq
    rfl

theorem peekAll_perm (q : List Emergency) : (peekAll q).Perm q := by
  match hq : popBest q with
  | none =>
    rw [(popBest_none_iff q).mp hq, peekAll_nil]
  | some (e, r) =>
    rw [peekAll_of_popBest hq]
    exact ((peekAll_perm r).cons e).trans (popBest_perm hq).symm
termination_by q.length
decreasing_by
  have := popBest_length hq
  omega

theorem peekAll_sorted (q : List Emergency) : (peekAll q).Pairwise lexLe := by
  match hq : popBest q with
  | none =>
    rw [(popBest_none_iff q).mp hq, peekAll_nil]
    exact List.Pairwise.nil
  | some (e, r) =>
    rw [peekAll_of_popBest hq]
    refine List.Pairwise.cons ?_ (peekAll_sorted r)
    intro x hx
    have hxr : x ∈ r := ((peekAll_perm r).mem_iff).mp hx
    have hxq : x ∈ q := ((popBest_perm hq).mem_iff).mpr (List.mem_cons_of_mem e hxr)
    exact popBest_min hq x hxq
termination_by q.length
decreasing_by
  have := popBest_length hq
  omega

theorem popBest_head_of_min {x : Emergency} {xs : List Emergency}
    (hmin : ∀ y ∈ xs, lexLe x y) : popBest (x :: xs) = some (x, xs) := by
  simp only [popBest]
  cases hx : popBest xs with
  | none => rfl
  | some p =>
    obtain ⟨b, r⟩ := p
    have hb : b ∈ xs := ((popBest_perm hx).mem_iff).mpr (List.mem_cons_self b r)
    have hcf : emergencyCompare x b = false :=
      (emergencyCompare_false_iff x b).mpr (hmin b hb)
    simp [hcf]

theorem peekAll_of_sorted {l : List Emergency} (hs : l.Pairwise lexLe) :
    peekAll l = l := by
  induction l with
  | nil => exact peekAll_nil
  | cons x xs ih =>
    have hmin : ∀ y ∈ xs, lexLe x y := fun _ hy => List.rel_of_pairwise_cons hs hy
    rw [peekAll_of_popBest (popBest_head_of_min hmin), ih (List.Pairwise.of_cons hs)]

/-- Bundles the five grid-geometry arguments (startX, startY, blockSize,
blocksX, blocksY) threaded through the pathfinding calls. -/
structure GridParams where
  startX : ℚ
  startY : ℚ
  blockSize : ℚ
  blocksX : ℕ
  blocksY : ℕ
deriving DecidableEq, Repr

/-- The road-grid intersection points in the scan order of
findNearestRoadPoint (main.cpp lines 120-131): y outer from 0 to blocksY,
x inner from 0 to blocksX. -/
def intersections (gp : GridParams) : List Point :=
  (List.range (gp.blocksY + 1)).flatMap (fun (y : ℕ) =>
    (List.range (gp.blocksX + 1)).map (fun (x : ℕ) =>
      ⟨gp.startX + (x : ℚ) * gp.blockSize, gp.startY + (y : ℚ) * gp.blockSize⟩))

/-- Models findNearestRoadPoint (main.cpp lines 116-133): scans every
intersection keeping the strictly nearest one (ties keep the first found);
starts from the sentinel pair (1e9 as a distance, the raw target), so the
raw target survives only if every intersection is at least 1e9 away. -/
def findNearestRoadPoint (target : Point) (gp : GridParams) : Point :=
  ((intersections gp).foldl
    (fun acc inter =>
      if distSq target inter < acc.1 then (distSq target inter, inter) else acc)
    ((10 ^ 18 : ℚ), target)).2

/-- Models the while loop of findPathOnRoads (main.cpp lines 142-149):
steps one blockSize along x until the x gap is within 1, then along y,
appending each visited corner.  The C++ loop has no fuel; the fuel here
bounds the iterations and none models nontermination within that bound.
A separate theorem exhibits a sufficient fuel for every snapped input. -/
def buildPath : ℕ → Point → Point → ℚ → Option (List Point)
  | 0, cur, e, _ =>
    if |cur.x - e.x| > 1 ∨ |cur.y - e.y| > 1 then none else some []
  | n + 1, cur, e, bs =>
    if |cur.x - e.x| > 1 ∨ |cur.y - e.y| > 1 then
      let cur2 : Point :=
        if |cur.x - e.x| > 1 then
          ⟨cur.x + (if cur.x < e.x then bs else -bs), cur.y⟩
        else
          ⟨cur.x, cur.y + (if cur.y < e.y then bs else -bs)⟩
      (buildPath n cur2 e bs).map (fun rest => cur2 :: rest)
    else some []

/-- Models findPathOnRoads (main.cpp lines 135-152): snap both endpoints,
emit the snapped start, walk the grid, and finally emit the raw end. -/
def findPathOnRoads (fuel : ℕ) (start target : Point) (gp : GridParams) :
    Option (List Point) :=
  let s := findNearestRoadPoint start gp
  let t := findNearestRoadPoint target gp
  (buildPath fuel s t gp.blockSize).map (fun mids => s :: (mids ++ [target]))

/-- The route actually stored on a vehicle: findPathOnRoads with the
nontermination case collapsed to the empty route.  Claims about route
contents hold for every fuel; the termination theorem shows a sufficient
fuel exists for in-range inputs. -/
def routeOrNil (fuel : ℕ) (start target : Point) (gp : GridParams) : List Point :=
  (findPathOnRoads fuel start target gp).getD []

/-- Models Ambulance::Status (main.cpp lines 50-56). -/
inductive Status where
  | IDLE
  | TO_SCENE
  | ON_SCENE
  | RETURNING
deriving DecidableEq, Repr

/-- Models Ambulance (main.cpp lines 36-76) restricted to the dispatch
logic; the color and the rendering helpers are omitted.  Field default
values mirror the C++ in-class initializers. -/
structure Ambulance where
  id : ℤ
  pos : Point
  parkingPos : Point
  speed : ℚ
  path : List Point
  currentPathIndex : ℤ
  busy : Bool
  assignedEmergencyId : ℤ
  assignedPatientName : String
  assignedHouseId : ℤ
  status : Status
  onSceneTimer : ℚ
deriving DecidableEq, Repr

/-- The C++ default-constructed Ambulance (in-class initializers of
main.cpp lines 38-57). -/
def Ambulance.default : Ambulance :=
  { id := 0
    pos := ⟨0, 0⟩
    parkingPos := ⟨0, 0⟩
    speed := 150
    path := []
    currentPathIndex := 0
    busy := false
    assignedEmergencyId := -1
    assignedPatientName := ""
    assignedHouseId := -1
    status := Status.IDLE
    onSceneTimer := 0 }

/-- Models the Hospital class state (main.cpp lines 282-288).  The
priority_queue is modelled by the list of its elements (see popBest). -/
structure Hospital where
  location : Point
  ambulances : List Ambulance
  queue_ : List Emergency
  nextEmergencyId : ℤ
  handledCount : ℤ
  onSceneDurationSec : ℚ
deriving DecidableEq, Repr

/-- Models the Hospital constructor (main.cpp lines 159-173): one idle
ambulance per parking position, ids consecutive from startAmbId, parked
at its spot; the emergency-id counter starts at 1. -/
def Hospital.init (loc : Point) (parkingPositions : List Point)
    (startAmbId : ℤ) (onSceneDuration : ℚ) : Hospital :=
  { location := loc
    ambulances := parkingPositions.enum.map (fun kp =>
      { Ambulance.default with
          id := startAmbId + (kp.1 : ℤ)
          parkingPos := kp.2
          pos := kp.2
          status := Status.IDLE })
    queue_ := []
    nextEmergencyId := 1
    handledCount := 0
    onSceneDurationSec := onSceneDuration }

/-- Models Hospital::receiveEmergency (main.cpp lines 175-181): the
incoming record is copied, its id is overwritten with the counter, its
createdAt with the current clock (GetTime passed in as now), and the
stamped copy is pushed. -/
def receiveEmergency (now : ℚ) (incoming : Emergency) (h : Hospital) : Hospital :=
  { h with
      queue_ := h.queue_ ++ [{ incoming with id := h.nextEmergencyId, createdAt := now }]
      nextEmergencyId := h.nextEmergencyId + 1 }

/-- The scan loop of Hospital::findNearestAvailableAmbulance (main.cpp
lines 290-309), carrying the running index and the best (index, squared
distance) pair.  The C++ sentinel best = -1 with bestd = FLT_MAX is
modelled by none. -/
def findNearestAux (target : Point) :
    List Ambulance → ℕ → Option (ℕ × ℚ) → Option (ℕ × ℚ)
  | [], _, best => best
  | a :: rest, i, best =>
    if a.status = Status.IDLE ∧ a.busy = false then
      match best with
      | none => findNearestAux target rest (i + 1) (some (i, distSq a.pos target))
      | some (bi, bd) =>
        if distSq a.pos target < bd then
          findNearestAux target rest (i + 1) (some (i, distSq a.pos target))
        else
          findNearestAux target rest (i + 1) (some (bi, bd))
    else
      findNearestAux target rest (i + 1) best

/-- Models Hospital::findNearestAvailableAmbulance (main.cpp lines
290-309): index of the idle, non-busy ambulance with strictly smallest
distance to the target, first index winning ties; none when no ambulance
is eligible. -/
def findNearestAvailableAmbulance (ambs : List Ambulance) (target : Point) :
    Option ℕ :=
  (findNearestAux target ambs 0 none).map Prod.fst

/-- The assignment block of Hospital::dispatchVehicles (main.cpp lines
195-204): route to the scene, reset the cursor, mark busy, copy the
emergency payload, enter TO_SCENE, clear the scene timer. -/
def assignAmb (gp : GridParams) (fuel : ℕ) (a : Ambulance) (em : Emergency) :
    Ambulance :=
  { a with
      path := routeOrNil fuel a.pos em.location gp
      currentPathIndex := 0
      busy := true
      assignedEmergencyId := em.id
      assignedPatientName := em.patient.name
      assignedHouseId := em.patient.houseNumber
      status := Status.TO_SCENE
      onSceneTimer := 0 }

/-- The drain loop of Hospital::dispatchVehicles (main.cpp lines 187-209):
pop the best emergency, match it to the nearest idle ambulance or append
it to the backlog, until the queue is empty; returns the updated roster
and the backlog (which the caller re-pushes as the new queue). -/
def drainDispatch (gp : GridParams) (fuel : ℕ) :
    List Ambulance → List Emergency → List Emergency →
    List Ambulance × List Emergency
  | ambs, q, backlog =>
    match hq : popBest q with
    | none => (ambs, backlog)
    | some (em, rest) =>
      match findNearestAvailableAmbulance ambs em.location with
      | some i =>
        drainDispatch gp fuel
          (ambs.set i (assignAmb gp fuel (ambs.getD i Ambulance.default) em))
          rest backlog
      | none => drainDispatch gp fuel ambs rest (backlog ++ [em])
termination_by ambs q backlog => q.length
decreasing_by
  all_goals
    have := popBest_length hq
    omega

/-- Models Hospital::dispatchVehicles (main.cpp lines 183-210).  The
early return on an empty queue is observationally the empty drain. -/
def dispatchVehicles (gp : GridParams) (fuel : ℕ) (h : Hospital) : Hospital :=
  let res := drainDispatch gp fuel h.ambulances h.queue_ []
  { h with ambulances := res.1, queue_ := res.2 }

/-- The per-ambulance body of Hospital::updateAfterMovement (main.cpp
lines 214-262).  The returned flag records whether the handled counter
was incremented (the ON_SCENE to RETURNING transition).  The arrival
checks compare a float distance against 4.0f, modelled as the squared
comparison against 16; dt stands for GetFrameTime(). -/
def stepVehicle (gp : GridParams) (fuel : ℕ) (dt : ℚ) (dur : ℚ)
    (a : Ambulance) : Ambulance × Bool :=
  match a.status with
  | Status.TO_SCENE =>
    if (a.path.length : ℤ) ≤ a.currentPathIndex then
      ({ a with status := Status.ON_SCENE, onSceneTimer := dur }, false)
    else
      let targ := a.path.getLastD ⟨0, 0⟩
      if distSq a.pos targ < 16 then
        ({ a with
            currentPathIndex := (a.path.length : ℤ)
            status := Status.ON_SCENE
            onSceneTimer := dur }, false)
      else (a, false)
  | Status.ON_SCENE =>
    let t := a.onSceneTimer - dt
    if t ≤ 0 then
      ({ a with
          onSceneTimer := t
          path := routeOrNil fuel a.pos a.parkingPos gp
          currentPathIndex := 0
          status := Status.RETURNING
          assignedEmergencyId := -1
          assignedPatientName := ""
          assignedHouseId := -1 }, true)
    else ({ a with onSceneTimer := t }, false)
  | Status.RETURNING =>
    if distSq a.pos a.parkingPos < 16 ∨ (a.path.length : ℤ) ≤ a.currentPathIndex then
      ({ a with
          pos := a.parkingPos
          path := []
          currentPathIndex := 0
          status := Status.IDLE
          busy := false }, false)
    else (a, false)
  | Status.IDLE => (a, false)

/-- Models Hospital::updateAfterMovement (main.cpp lines 212-263): every
ambulance takes one state-machine step; the handled counter grows by the
number of ON_SCENE to RETURNING transitions. -/
def updateAfterMovement (gp : GridParams) (fuel : ℕ) (dt : ℚ) (h : Hospital) :
    Hospital :=
  let stepped := h.ambulances.map (stepVehicle gp fuel dt h.onSceneDurationSec)
  { h with
      ambulances := stepped.map Prod.fst
      handledCount := h.handledCount + ((stepped.filter Prod.snd).length : ℤ) }

/-- Abstraction of the per-frame kinematics of the main loop (main.cpp
lines 482-514).  The motion integration uses a float square root to
normalise directions, so the position update is not rational-valued; but
it only ever changes pos and, when the snap threshold is reached and the
cursor still points inside the route, advances the cursor by one.  Every
dispatch-relevant field is untouched.  Any concrete float behaviour is
one instance of this relation, so invariants proved over it cover the
real kinematics. -/
def motionVeh (a b : Ambulance) : Prop :=
  b.id = a.id ∧
  b.parkingPos = a.parkingPos ∧
  b.speed = a.speed ∧
  b.path = a.path ∧
  b.busy = a.busy ∧
  b.assignedEmergencyId = a.assignedEmergencyId ∧
  b.assignedPatientName = a.assignedPatientName ∧
  b.assignedHouseId = a.assignedHouseId ∧
  b.status = a.status ∧
  b.onSceneTimer = a.onSceneTimer ∧
  (b.currentPathIndex = a.currentPathIndex ∨
    (a.currentPathIndex < (a.path.length : ℤ) ∧
      b.currentPathIndex = a.currentPathIndex + 1))

/-- One observable operation on a hospital, as driven by the main loop:
an intake call, a frame of motion integration, a dispatch pass, or a
state-machine update pass. -/
inductive Step (gp : GridParams) (fuel : ℕ) : Hospital → Hospital → Prop
  | receive (h : Hospital) (now : ℚ) (incoming : Emergency) :
      Step gp fuel h (receiveEmergency now incoming h)
  | motion (h : Hospital) (ambs2 : List Ambulance)
      (hm : List.Forall₂ motionVeh h.ambulances ambs2) :
      Step gp fuel h { h with ambulances := ambs2 }
  | dispatch (h : Hospital) :
      Step gp fuel h (dispatchVehicles gp fuel h)
  | update (h : Hospital) (dt : ℚ) :
      Step gp fuel h (updateAfterMovement gp fuel dt h)

/-- Hospital states reachable from a freshly constructed hospital by any
sequence of main-loop operations. -/
inductive Reachable (gp : GridParams) (fuel : ℕ) : Hospital → Prop
  | init (loc : Point) (parkingPositions : List Point) (startAmbId : ℤ)
      (onSceneDuration : ℚ) :
      Reachable gp fuel (Hospital.init loc parkingPositions startAmbId onSceneDuration)
  | step {h h2 : Hospital} (hr : Reachable gp fuel h) (hs : Step gp fuel h h2) :
      Reachable gp fuel h2

/-- Sequential form of the dispatch drain: processes an explicit list of
emergencies in the given order with the same per-emergency body as
drainDispatch.  Used to state that the drain loop handles the queue
exactly in peekAll (best-first) order. -/
def dispatchList (gp : GridParams) (fuel : ℕ) :
    List Ambulance → List Emergency → List Emergency →
    List Ambulance × List Emergency
  | ambs, [], bl => (ambs, bl)
  | ambs, em :: rest, bl =>
    match findNearestAvailableAmbulance ambs em.location with
    | some i =>
      dispatchList gp fuel
        (ambs.set i (assignAmb gp fuel (ambs.getD i Ambulance.default) em))
        rest bl
    | none => dispatchList gp fuel ambs rest (bl ++ [em])

theorem drainDispatch_of_popBest_none {gp : GridParams} {fuel : ℕ}
    {ambs : List Ambulance} {q bl : List Emergency}
    (hq : popBest q = none) :
    drainDispatch gp fuel ambs q bl = (ambs, bl) := by
  conv_lhs => unfold drainDispatch
  split
  · rfl
  · next em rest heq => rw [hq] at heq; cases heq

theorem drainDispatch_of_popBest_some {gp : GridParams} {fuel : ℕ}
    {ambs : List Ambulance} {q bl : List Emergency} {em : Emergency}
    {rest : List Emergency}
    (hq : popBest q = some (em, rest)) :
    drainDispatch gp fuel ambs q bl =
      match findNearestAvailableAmbulance ambs em.location with
      | some i =>
        drainDispatch gp fuel
          (ambs.set i (assignAmb gp fuel (ambs.getD i Ambulance.default) em))
          rest bl
      | none => drainDispatch gp fuel ambs rest (bl ++ [em]) := by
  conv_lhs => unfold drainDispatch
  split
  · next heq => rw [heq] at hq; cases hq
  · next em2 rest2 heq =>
    rw [hq] at heq
    cases heq
    rfl

/-- The drain loop consumes the queue exactly in peekAll order. -/
theorem drainDispatch_eq_dispatchList (gp : GridParams) (fuel : ℕ)
    (ambs : List Ambulance) (q bl : List Emergency) :
    drainDispatch gp fuel ambs q bl = dispatchList gp fuel ambs (peekAll q) bl := by
  match hq : popBest q with
  | none =>
    rw [drainDispatch_of_popBest_none hq, (popBest_none_iff q).mp hq, peekAll_nil]
    rfl
  | some (em, rest) =>
    rw [drainDispatch_of_popBest_some hq, peekAll_of_popBest hq]
    simp only [dispatchList]
    cases hfn : findNearestAvailableAmbulance ambs em.location with
    | none => exact drainDispatch_eq_dispatchList gp fuel ambs rest (bl ++ [em])
    | some i => exact drainDispatch_eq_dispatchList gp fuel _ rest bl
termination_by q.length
decreasing_by
  all_goals
    have := popBest_length hq
    omega


/-- Full characterisation of the nearest-ambulance scan: provided the
accumulator index (if any) lies below the running index, the scan returns
none exactly when nothing is eligible and the accumulator was empty; and
a returned pair is either the untouched accumulator or an eligible list
element, is at least as close as the accumulator, and realises the
minimum squared distance over all eligible elements with the earliest
index winning exact ties. -/
theorem findNearestAux_spec (t : Point) :
    ∀ (l : List Ambulance) (i0 : ℕ) (best : Option (ℕ × ℚ)),
      (∀ bi bd, best = some (bi, bd) → bi < i0) →
      (findNearestAux t l i0 best = none →
          best = none ∧
          ∀ (j : ℕ) (hj : j < l.length),
            ¬((l.get ⟨j, hj⟩).status = Status.IDLE ∧ (l.get ⟨j, hj⟩).busy = false)) ∧
      (∀ k d, findNearestAux t l i0 best = some (k, d) →
          (best = some (k, d) ∨
            ∃ (j : ℕ) (hj : j < l.length), k = i0 + j ∧
              (l.get ⟨j, hj⟩).status = Status.IDLE ∧ (l.get ⟨j, hj⟩).busy = false ∧
              d = distSq (l.get ⟨j, hj⟩).pos t) ∧
          (∀ bi bd, best = some (bi, bd) → d ≤ bd ∧ (d = bd → k ≤ bi)) ∧
          (∀ (j : ℕ) (hj : j < l.length),
            (l.get ⟨j, hj⟩).status = Status.IDLE → (l.get ⟨j, hj⟩).busy = false →
              d ≤ distSq (l.get ⟨j, hj⟩).pos t ∧
              (d = distSq (l.get ⟨j, hj⟩).pos t → k ≤ i0 + j))) := by
  intro l
  induction l with
  | nil =>
    intro i0 best hb
    constructor
    · intro hres
      simp only [findNearestAux] at hres
      exact ⟨hres, fun j hj => absurd hj (by simp)⟩
    · intro k d hres
      simp only [findNearestAux] at hres
      refine ⟨Or.inl hres, ?_, ?_⟩
      · intro bi bd hbd
        rw [hres] at hbd
        cases hbd
        exact ⟨le_refl _, fun _ => le_refl _⟩
      · intro j hj
        exact absurd hj (by simp)
  | cons a rest ih =>
    intro i0 best hb
    by_cases ha : a.status = Status.IDLE ∧ a.busy = false
    · rcases best with _ | ⟨bi, bd⟩
      · have key := ih (i0 + 1) (some (i0, distSq a.pos t))
          (by intro x y hxy; cases hxy; omega)
        have hres : findNearestAux t (a :: rest) i0 none
            = findNearestAux t rest (i0 + 1) (some (i0, distSq a.pos t)) := by
          simp only [findNearestAux]
          rw [if_pos ha]
        refine ⟨?_, ?_⟩
        · intro hnone
          rw [hres] at hnone
          exact absurd (key.1 hnone).1 (by simp)
        · intro k d hsome
          rw [hres] at hsome
          obtain ⟨hfrom, hacc, hmin⟩ := key.2 k d hsome
          have hacc0 := hacc i0 (distSq a.pos t) rfl
          refine ⟨?_, ?_, ?_⟩
          · right
            rcases hfrom with hfrom | ⟨j, hj, hj1, hj2, hj3, hj4⟩
            · cases hfrom
              exact ⟨0, by simp, by omega, ha.1, ha.2, rfl⟩
            · exact ⟨j + 1, by simpa using hj, by omega, hj2, hj3, hj4⟩
          · intro x y hxy
            exact Option.noConfusion hxy
          · intro j hj hj1 hj2
            cases j with
            | zero =>
              refine ⟨hacc0.1, fun hd => ?_⟩
              have := hacc0.2 hd
              omega
            | succ m =>
              have hm : m < rest.length := by simpa using hj
              have hk := hmin m hm hj1 hj2
              exact ⟨hk.1, fun hd => by have := hk.2 hd; omega⟩
      · have hbi : bi < i0 := hb bi bd rfl
        by_cases hlt : distSq a.pos t < bd
        · have key := ih (i0 + 1) (some (i0, distSq a.pos t))
            (by intro x y hxy; cases hxy; omega)
          have hres : findNearestAux t (a :: rest) i0 (some (bi, bd))
              = findNearestAux t rest (i0 + 1) (some (i0, distSq a.pos t)) := by
            simp only [findNearestAux]
            rw [if_pos ha, if_pos hlt]
          refine ⟨?_, ?_⟩
          · intro hnone
            rw [hres] at hnone
            exact absurd (key.1 hnone).1 (by simp)
          · intro k d hsome
            rw [hres] at hsome
            obtain ⟨hfrom, hacc, hmin⟩ := key.2 k d hsome
            have hacc0 := hacc i0 (distSq a.pos t) rfl
            have hdlt : d < bd := lt_of_le_of_lt hacc0.1 hlt
            refine ⟨?_, ?_, ?_⟩
            · right
              rcases hfrom with hfrom | ⟨j, hj, hj1, hj2, hj3, hj4⟩
              · cases hfrom
                exact ⟨0, by simp, by omega, ha.1, ha.2, rfl⟩
              · exact ⟨j + 1, by simpa using hj, by omega, hj2, hj3, hj4⟩
            · intro x y hxy
              cases hxy
              exact ⟨le_of_lt hdlt, fun hd => absurd (hd ▸ hdlt) (lt_irrefl _)⟩
            · intro j hj hj1 hj2
              cases j with
              | zero =>
                refine ⟨hacc0.1, fun hd => ?_⟩
                have := hacc0.2 hd
                omega
              | succ m =>
                have hm : m < rest.length := by simpa using hj
                have hk := hmin m hm hj1 hj2
                exact ⟨hk.1, fun hd => by have := hk.2 hd; omega⟩
        · have key := ih (i0 + 1) (some (bi, bd))
            (by intro x y hxy; cases hxy; omega)
          have hres : findNearestAux t (a :: rest) i0 (some (bi, bd))
              = findNearestAux t rest (i0 + 1) (some (bi, bd)) := by
            simp only [findNearestAux]
            rw [if_pos ha, if_neg hlt]
          refine ⟨?_, ?_⟩
          · intro hnone
            rw [hres] at hnone
            exact absurd (key.1 hnone).1 (by simp)
          · intro k d hsome
            rw [hres] at hsome
            obtain ⟨hfrom, hacc, hmin⟩ := key.2 k d hsome
            have hacc0 := hacc bi bd rfl
            refine ⟨?_, ?_, ?_⟩
            · rcases hfrom with hfrom | ⟨j, hj, hj1, hj2, hj3, hj4⟩
              · exact Or.inl hfrom
              · exact Or.inr ⟨j + 1, by simpa using hj, by omega, hj2, hj3, hj4⟩
            · intro x y hxy
              cases hxy
              exact hacc0
            · intro j hj hj1 hj2
              cases j with
              | zero =>
                have hble : bd ≤ distSq a.pos t := le_of_not_lt hlt
                refine ⟨le_trans hacc0.1 hble, fun hd => ?_⟩
                have hd2 : d = distSq a.pos t := hd
                have hdb : d = bd := le_antisymm hacc0.1 (by rw [← hd2] at hble; exact hble)
                have := hacc0.2 hdb
                omega
              | succ m =>
                have hm : m < rest.length := by simpa using hj
                have hk := hmin m hm hj1 hj2
                exact ⟨hk.1, fun hd => by have := hk.2 hd; omega⟩
    · have key := ih (i0 + 1) best (fun x y hxy => Nat.lt_succ_of_lt (hb x y hxy))
      have hres : findNearestAux t (a :: rest) i0 best
          = findNearestAux t rest (i0 + 1) best := by
        simp only [findNearestAux]
        rw [if_neg ha]
      refine ⟨?_, ?_⟩
      · intro hnone
        rw [hres] at hnone
        obtain ⟨h1, h2⟩ := key.1 hnone
        refine ⟨h1, ?_⟩
        intro j hj
        cases j with
        | zero => exact fun hc => ha hc
        | succ m =>
          have hm : m < rest.length := by simpa using hj
          exact h2 m hm
      · intro k d hsome
        rw [hres] at hsome
        obtain ⟨hfrom, hacc, hmin⟩ := key.2 k d hsome
        refine ⟨?_, hacc, ?_⟩
        · rcases hfrom with hfrom | ⟨j, hj, hj1, hj2, hj3, hj4⟩
          · exact Or.inl hfrom
          · exact Or.inr ⟨j + 1, by simpa using hj, by omega, hj2, hj3, hj4⟩
        · intro j hj hj1 hj2
          cases j with
          | zero => exact absurd ⟨hj1, hj2⟩ ha
          | succ m =>
            have hm : m < rest.length := by simpa using hj
            have hk := hmin m hm hj1 hj2
            exact ⟨hk.1, fun hd => by have := hk.2 hd; omega⟩

/-- A successful scan returns an in-range index of an idle, non-busy
ambulance whose squared distance to the target is minimal over all idle,
non-busy ambulances, the lowest index winning exact ties. -/
theorem findNearest_some {ambs : List Ambulance} {t : Point} {i : ℕ}
    (h : findNearestAvailableAmbulance ambs t = some i) :
    ∃ hi : i < ambs.length,
      (ambs.get ⟨i, hi⟩).status = Status.IDLE ∧ (ambs.get ⟨i, hi⟩).busy = false ∧
      ∀ (j : ℕ) (hj : j < ambs.length),
        (ambs.get ⟨j, hj⟩).status = Status.IDLE → (ambs.get ⟨j, hj⟩).busy = false →
          distSq (ambs.get ⟨i, hi⟩).pos t ≤ distSq (ambs.get ⟨j, hj⟩).pos t ∧
          (distSq (ambs.get ⟨i, hi⟩).pos t = distSq (ambs.get ⟨j, hj⟩).pos t → i ≤ j) := by
  unfold findNearestAvailableAmbulance at h
  rcases Option.map_eq_some.mp h with ⟨⟨k, d⟩, hkd, hfst⟩
  have hk : k = i := hfst
  subst hk
  have hspec := (findNearestAux_spec t ambs 0 none (by intro x y hxy; cases hxy)).2 k d hkd
  obtain ⟨hfrom, _, hmin⟩ := hspec
  rcases hfrom with hfrom | ⟨j, hj, hj1, hj2, hj3, hj4⟩
  · exact Option.noConfusion hfrom
  · have hkj : k = j := by omega
    subst hkj
    refine ⟨hj, hj2, hj3, ?_⟩
    intro j2 hj2b hs hb
    have hm2 := hmin j2 hj2b hs hb
    rw [← hj4]
    exact ⟨hm2.1, fun hd => by have := hm2.2 hd; omega⟩

/-- A failed scan means that no ambulance is idle and non-busy. -/
theorem findNearest_none {ambs : List Ambulance} {t : Point}
    (h : findNearestAvailableAmbulance ambs t = none) :
    ∀ (j : ℕ) (hj : j < ambs.length),
      ¬((ambs.get ⟨j, hj⟩).status = Status.IDLE ∧ (ambs.get ⟨j, hj⟩).busy = false) := by
  unfold findNearestAvailableAmbulance at h
  have hn : findNearestAux t ambs 0 none = none := Option.map_eq_none.mp h
  exact (findNearestAux_spec t ambs 0 none (by intro x y hxy; cases hxy)).1 hn |>.2

/-- Per-ambulance component of the reachability invariant: busy mirrors
non-idleness, the assignment is present exactly in the TO_SCENE and
ON_SCENE phases, an assigned id is a stamped id below the counter, and an
idle ambulance carries no route. -/
def InvAmb (next : ℤ) (a : Ambulance) : Prop :=
  a.busy = decide (a.status ≠ Status.IDLE) ∧
  (a.assignedEmergencyId ≠ -1 ↔
    (a.status = Status.TO_SCENE ∨ a.status = Status.ON_SCENE)) ∧
  (a.assignedEmergencyId = -1 ∨
    (1 ≤ a.assignedEmergencyId ∧ a.assignedEmergencyId < next)) ∧
  (a.status = Status.IDLE → a.path = [] ∧ a.currentPathIndex = 0)

instance (next : ℤ) (a : Ambulance) : Decidable (InvAmb next a) := by
  unfold InvAmb; infer_instance

/-- Two ambulances never carry the same real assignment. -/
def PDistinct (a b : Ambulance) : Prop :=
  a.assignedEmergencyId = -1 ∨ a.assignedEmergencyId ≠ b.assignedEmergencyId

instance (a b : Ambulance) : Decidable (PDistinct a b) := by
  unfold PDistinct; infer_instance

/-- The reachability invariant of a hospital: a positive fresh-id counter,
queue ids stamped, unique and below the counter, no queued id assigned to
any ambulance, every ambulance well-formed, and pairwise distinct
assignments. -/
def HospInv (h : Hospital) : Prop :=
  1 ≤ h.nextEmergencyId ∧
  (∀ e ∈ h.queue_, 1 ≤ e.id ∧ e.id < h.nextEmergencyId) ∧
  (h.queue_.map Emergency.id).Nodup ∧
  (∀ e ∈ h.queue_, ∀ a ∈ h.ambulances, a.assignedEmergencyId ≠ e.id) ∧
  (∀ a ∈ h.ambulances, InvAmb h.nextEmergencyId a) ∧
  h.ambulances.Pairwise PDistinct

instance (h : Hospital) : Decidable (HospInv h) := by
  unfold HospInv; infer_instance

theorem InvAmb_mono {n1 n2 : ℤ} (hle : n1 ≤ n2) {a : Ambulance}
    (hi : InvAmb n1 a) : InvAmb n2 a := by
  obtain ⟨h1, h2, h3, h4⟩ := hi
  refine ⟨h1, h2, ?_, h4⟩
  rcases h3 with h3 | ⟨h3a, h3b⟩
  · exact Or.inl h3
  · exact Or.inr ⟨h3a, lt_of_lt_of_le h3b hle⟩

theorem forall₂_mem_right {R : Ambulance → Ambulance → Prop} :
    ∀ {l1 l2 : List Ambulance}, List.Forall₂ R l1 l2 →
      ∀ b ∈ l2, ∃ a ∈ l1, R a b := by
  intro l1 l2 h
  induction h with
  | nil =>
    intro b hb
    simp at hb
  | @cons a b l1t l2t hr _ ih =>
    intro b2 hb2
    rcases List.mem_cons.mp hb2 with hb2 | hb2
    · exact ⟨a, List.mem_cons_self a l1t, by rw [hb2]; exact hr⟩
    · obtain ⟨a2, ha2, hR⟩ := ih b2 hb2
      exact ⟨a2, List.mem_cons_of_mem a ha2, hR⟩

theorem pairwise_of_forall₂ {R P : Ambulance → Ambulance → Prop}
    (hPR : ∀ a b a2 b2, R a a2 → R b b2 → P a b → P a2 b2) :
    ∀ {l1 l2 : List Ambulance}, List.Forall₂ R l1 l2 →
      l1.Pairwise P → l2.Pairwise P := by
  intro l1 l2 h
  induction h with
  | nil => exact fun _ => List.Pairwise.nil
  | @cons a b l1t l2t hr hrest ih =>
    intro hp
    cases hp with
    | cons hhead htail =>
      refine List.Pairwise.cons ?_ (ih htail)
      intro b2 hb2
      obtain ⟨c, hc, hRc⟩ := forall₂_mem_right hrest b2 hb2
      exact hPR a c b b2 hr hRc (hhead c hc)

theorem getD_set_self {l : List Ambulance} {k : ℕ} {v d : Ambulance}
    (hk : k < l.length) : (l.set k v).getD k d = v := by
  induction l generalizing k with
  | nil => simp at hk
  | cons a t ih =>
    cases k with
    | zero => rfl
    | succ m => exact ih (by simpa using hk)

theorem getD_set_ne {l : List Ambulance} {k i : ℕ} {v d : Ambulance}
    (h : k ≠ i) : (l.set k v).getD i d = l.getD i d := by
  induction l generalizing k i with
  | nil => simp
  | cons a t ih =>
    cases k with
    | zero =>
      cases i with
      | zero => exact absurd rfl h
      | succ m => rfl
    | succ m =>
      cases i with
      | zero => rfl
      | succ n => exact ih (by omega)

theorem get_eq_getD {l : List Ambulance} {i : ℕ} (hi : i < l.length) :
    l.get ⟨i, hi⟩ = l.getD i Ambulance.default := by
  induction l generalizing i with
  | nil => simp at hi
  | cons a t ih =>
    cases i with
    | zero => rfl
    | succ m => exact ih (by simpa using hi)

theorem id_fresh {bl rest : List Emergency} {em : Emergency}
    (hn : ((bl ++ em :: rest).map Emergency.id).Nodup) :
    ∀ e ∈ bl ++ rest, e.id ≠ em.id := by
  intro e he
  rw [List.map_append, List.map_cons] at hn
  rcases List.nodup_append.mp hn with ⟨h1, h2, hdisj⟩
  rcases List.mem_append.mp he with he | he
  · intro hc
    exact hdisj (List.mem_map_of_mem Emergency.id he)
      (by rw [hc]; exact List.mem_cons_self _ _)
  · intro hc
    exact (List.nodup_cons.mp h2).1
      (by rw [← hc]; exact List.mem_map_of_mem Emergency.id he)

theorem nodup_drop_mid {bl rest : List Emergency} {em : Emergency}
    (hn : ((bl ++ em :: rest).map Emergency.id).Nodup) :
    ((bl ++ rest).map Emergency.id).Nodup := by
  refine List.Nodup.sublist (List.Sublist.map _ ?_) hn
  exact List.Sublist.append_left (List.sublist_cons_self em rest) bl

theorem mem_mid {e em : Emergency} {bl rest : List Emergency}
    (he : e ∈ bl ++ rest) : e ∈ bl ++ em :: rest := by
  rcases List.mem_append.mp he with h | h
  · exact List.mem_append.mpr (Or.inl h)
  · exact List.mem_append.mpr (Or.inr (List.mem_cons_of_mem _ h))

theorem assignAmb_fields (gp : GridParams) (fuel : ℕ) (a : Ambulance)
    (em : Emergency) :
    (assignAmb gp fuel a em).status = Status.TO_SCENE ∧
    (assignAmb gp fuel a em).busy = true ∧
    (assignAmb gp fuel a em).assignedEmergencyId = em.id := by
  unfold assignAmb
  exact ⟨rfl, rfl, rfl⟩

theorem InvAmb_assign {next : ℤ} (gp : GridParams) (fuel : ℕ) {a : Ambulance}
    {em : Emergency} (hbound : 1 ≤ em.id ∧ em.id < next) :
    InvAmb next (assignAmb gp fuel a em) := by
  unfold InvAmb assignAmb
  refine ⟨rfl, ?_, Or.inr hbound, ?_⟩
  · show em.id ≠ -1 ↔ (Status.TO_SCENE = Status.TO_SCENE ∨ Status.TO_SCENE = Status.ON_SCENE)
    constructor
    · intro _
      exact Or.inl rfl
    · intro _
      omega
  · show Status.TO_SCENE = Status.IDLE → _
    intro hc
    exact absurd hc (by decide)

theorem pairwise_set {l : List Ambulance} {v : Ambulance}
    (hv1 : v.assignedEmergencyId ≠ -1)
    (hfresh : ∀ a ∈ l, a.assignedEmergencyId ≠ v.assignedEmergencyId) :
    ∀ (k : ℕ), l.Pairwise PDistinct → (l.set k v).Pairwise PDistinct := by
  induction l with
  | nil =>
    intro k _
    simp
  | cons a t ih =>
    intro k hp
    cases hp with
    | cons hhead htail =>
      cases k with
      | zero =>
        refine List.Pairwise.cons ?_ htail
        intro b hb
        exact Or.inr (Ne.symm (hfresh b (List.mem_cons_of_mem a hb)))
      | succ m =>
        refine List.Pairwise.cons ?_
          (ih (fun x hx => hfresh x (List.mem_cons_of_mem a hx)) m htail)
        intro b hb
        rcases List.mem_or_eq_of_mem_set hb with hb | hb
        · exact hhead b hb
        · rw [hb]
          exact Or.inr (hfresh a (List.mem_cons_self a t))

theorem dispatchList_length (gp : GridParams) (fuel : ℕ) :
    ∀ (ems : List Emergency) (ambs : List Ambulance) (bl : List Emergency),
      (dispatchList gp fuel ambs ems bl).1.length = ambs.length := by
  intro ems
  induction ems with
  | nil =>
    intro ambs bl
    rfl
  | cons em rest ih =>
    intro ambs bl
    cases hfn : findNearestAvailableAmbulance ambs em.location with
    | some k =>
      have hgoal : dispatchList gp fuel ambs (em :: rest) bl =
          dispatchList gp fuel
            (ambs.set k (assignAmb gp fuel (ambs.getD k Ambulance.default) em))
            rest bl := by
        simp only [dispatchList]
        rw [hfn]
      rw [hgoal, ih]
      exact List.length_set ..
    | none =>
      have hgoal : dispatchList gp fuel ambs (em :: rest) bl =
          dispatchList gp fuel ambs rest (bl ++ [em]) := by
        simp only [dispatchList]
        rw [hfn]
      rw [hgoal]
      exact ih ambs (bl ++ [em])

/-- Every roster slot is either untouched by a dispatch pass or was an
idle, non-busy ambulance that got assigned one of the processed
emergencies. -/
theorem dispatchList_get (gp : GridParams) (fuel : ℕ) :
    ∀ (ems : List Emergency) (ambs : List Ambulance) (bl : List Emergency) (i : ℕ),
      i < ambs.length →
      ((dispatchList gp fuel ambs ems bl).1.getD i Ambulance.default
          = ambs.getD i Ambulance.default ∨
        ∃ em ∈ ems,
          (ambs.getD i Ambulance.default).status = Status.IDLE ∧
          (ambs.getD i Ambulance.default).busy = false ∧
          (dispatchList gp fuel ambs ems bl).1.getD i Ambulance.default
            = assignAmb gp fuel (ambs.getD i Ambulance.default) em) := by
  intro ems
  induction ems with
  | nil =>
    intro ambs bl i hi
    exact Or.inl rfl
  | cons em rest ih =>
    intro ambs bl i hi
    cases hfn : findNearestAvailableAmbulance ambs em.location with
    | some k =>
      obtain ⟨hk, hkIdle, hkBusy, _⟩ := findNearest_some hfn
      have hgoal : dispatchList gp fuel ambs (em :: rest) bl =
          dispatchList gp fuel
            (ambs.set k (assignAmb gp fuel (ambs.getD k Ambulance.default) em))
            rest bl := by
        simp only [dispatchList]
        rw [hfn]
      rw [hgoal]
      have hlen2 :
          i < (ambs.set k (assignAmb gp fuel (ambs.getD k Ambulance.default) em)).length := by
        simpa using hi
      have hrec := ih (ambs.set k (assignAmb gp fuel (ambs.getD k Ambulance.default) em))
        bl i hlen2
      by_cases hik : k = i
      · subst hik
        have hset :
            (ambs.set k (assignAmb gp fuel (ambs.getD k Ambulance.default) em)).getD k
              Ambulance.default
              = assignAmb gp fuel (ambs.getD k Ambulance.default) em := getD_set_self hk
        rcases hrec with hrec | ⟨em2, hem2, hstat, hbusy2, heq⟩
        · right
          refine ⟨em, List.mem_cons_self em rest, ?_, ?_, ?_⟩
          · rw [← get_eq_getD hk]
            exact hkIdle
          · rw [← get_eq_getD hk]
            exact hkBusy
          · rw [hrec, hset]
        · rw [hset] at hstat
          have hf := (assignAmb_fields gp fuel (ambs.getD k Ambulance.default) em).1
          rw [hf] at hstat
          exact absurd hstat (by decide)
      · have hset :
            (ambs.set k (assignAmb gp fuel (ambs.getD k Ambulance.default) em)).getD i
              Ambulance.default = ambs.getD i Ambulance.default := getD_set_ne hik
        rcases hrec with hrec | ⟨em2, hem2, hstat, hbusy2, heq⟩
        · left
          rw [hrec, hset]
        · right
          refine ⟨em2, List.mem_cons_of_mem em hem2, ?_, ?_, ?_⟩
          · rw [← hset]
            exact hstat
          · rw [← hset]
            exact hbusy2
          · rw [← hset]
            exact heq
    | none =>
      have hgoal : dispatchList gp fuel ambs (em :: rest) bl =
          dispatchList gp fuel ambs rest (bl ++ [em]) := by
        simp only [dispatchList]
        rw [hfn]
      rw [hgoal]
      rcases ih ambs (bl ++ [em]) i hi with h | ⟨em2, hem2, h1, h2, h3⟩
      · exact Or.inl h
      · exact Or.inr ⟨em2, List.mem_cons_of_mem em hem2, h1, h2, h3⟩

/-- The backlog produced by a dispatch pass extends the accumulator with
a subsequence of the processed emergencies, and every processed emergency
either lands in that subsequence or ends up as the assignment of some
roster slot. -/
theorem dispatchList_backlog (gp : GridParams) (fuel : ℕ) :
    ∀ (ems : List Emergency) (ambs : List Ambulance) (bl : List Emergency),
      ∃ s : List Emergency,
        (dispatchList gp fuel ambs ems bl).2 = bl ++ s ∧
        s.Sublist ems ∧
        ∀ e ∈ ems, e ∈ s ∨ ∃ i : ℕ, i < ambs.length ∧
          ((dispatchList gp fuel ambs ems bl).1.getD i
            Ambulance.default).assignedEmergencyId = e.id := by
  intro ems
  induction ems with
  | nil =>
    intro ambs bl
    refine ⟨[], by simp [dispatchList], List.nil_sublist [], ?_⟩
    intro e he
    simp at he
  | cons em rest ih =>
    intro ambs bl
    cases hfn : findNearestAvailableAmbulance ambs em.location with
    | some k =>
      obtain ⟨hk, hkIdle, hkBusy, _⟩ := findNearest_some hfn
      have hgoal : dispatchList gp fuel ambs (em :: rest) bl =
          dispatchList gp fuel
            (ambs.set k (assignAmb gp fuel (ambs.getD k Ambulance.default) em))
            rest bl := by
        simp only [dispatchList]
        rw [hfn]
      rw [hgoal]
      obtain ⟨s, h1, h2, h3⟩ :=
        ih (ambs.set k (assignAmb gp fuel (ambs.getD k Ambulance.default) em)) bl
      refine ⟨s, h1, h2.trans (List.sublist_cons_self em rest), ?_⟩
      intro e he
      rcases List.mem_cons.mp he with he | he
      · right
        refine ⟨k, hk, ?_⟩
        have hset :
            (ambs.set k (assignAmb gp fuel (ambs.getD k Ambulance.default) em)).getD k
              Ambulance.default
              = assignAmb gp fuel (ambs.getD k Ambulance.default) em := getD_set_self hk
        have hrec := dispatchList_get gp fuel rest
          (ambs.set k (assignAmb gp fuel (ambs.getD k Ambulance.default) em)) bl k
          (by simpa using hk)
        rcases hrec with hrec | ⟨em2, hem2, hstat, hbusy2, heq⟩
        · rw [hrec, hset, (assignAmb_fields gp fuel (ambs.getD k Ambulance.default) em).2.2,
            he]
        · rw [hset] at hstat
          have hf := (assignAmb_fields gp fuel (ambs.getD k Ambulance.default) em).1
          rw [hf] at hstat
          exact absurd hstat (by decide)
      · rcases h3 e he with h | ⟨i, hil, hass⟩
        · exact Or.inl h
        · exact Or.inr ⟨i, by simpa using hil, hass⟩
    | none =>
      have hgoal : dispatchList gp fuel ambs (em :: rest) bl =
          dispatchList gp fuel ambs rest (bl ++ [em]) := by
        simp only [dispatchList]
        rw [hfn]
      rw [hgoal]
      obtain ⟨s, h1, h2, h3⟩ := ih ambs (bl ++ [em])
      refine ⟨em :: s, ?_, ?_, ?_⟩
      · rw [h1]
        simp
      · exact List.Sublist.cons₂ em h2
      · intro e he
        rcases List.mem_cons.mp he with he | he
        · exact Or.inl (by rw [he]; exact List.mem_cons_self em s)
        · rcases h3 e he with h | ⟨i, hil, hass⟩
          · exact Or.inl (List.mem_cons_of_mem em h)
          · exact Or.inr ⟨i, hil, hass⟩

/-- A dispatch pass preserves the hospital invariant components: given
fresh, unique, unassigned ids in the working backlog and queue and a
well-formed roster, the resulting roster is well-formed with pairwise
distinct assignments, and the resulting backlog keeps fresh, unique ids
disjoint from every assignment. -/
theorem dispatchList_inv (gp : GridParams) (fuel : ℕ) (next : ℤ) :
    ∀ (ems : List Emergency) (ambs : List Ambulance) (bl : List Emergency),
      (∀ e ∈ bl ++ ems, 1 ≤ e.id ∧ e.id < next) →
      ((bl ++ ems).map Emergency.id).Nodup →
      (∀ e ∈ bl ++ ems, ∀ a ∈ ambs, a.assignedEmergencyId ≠ e.id) →
      (∀ a ∈ ambs, InvAmb next a) →
      ambs.Pairwise PDistinct →
      (∀ a ∈ (dispatchList gp fuel ambs ems bl).1, InvAmb next a) ∧
      (dispatchList gp fuel ambs ems bl).1.Pairwise PDistinct ∧
      (∀ e ∈ (dispatchList gp fuel ambs ems bl).2, 1 ≤ e.id ∧ e.id < next) ∧
      (((dispatchList gp fuel ambs ems bl).2).map Emergency.id).Nodup ∧
      (∀ e ∈ (dispatchList gp fuel ambs ems bl).2,
        ∀ a ∈ (dispatchList gp fuel ambs ems bl).1, a.assignedEmergencyId ≠ e.id) := by
  intro ems
  induction ems with
  | nil =>
    intro ambs bl hid hnd hdisj hinv hpw
    simp only [List.append_nil] at hid hnd hdisj
    exact ⟨hinv, hpw, hid, hnd, hdisj⟩
  | cons em rest ih =>
    intro ambs bl hid hnd hdisj hinv hpw
    have hem : em ∈ bl ++ em :: rest :=
      List.mem_append.mpr (Or.inr (List.mem_cons_self em rest))
    have hembound := hid em hem
    have hfresh := id_fresh hnd
    cases hfn : findNearestAvailableAmbulance ambs em.location with
    | some k =>
      obtain ⟨hk, hkIdle, hkBusy, _⟩ := findNearest_some hfn
      have hgoal : dispatchList gp fuel ambs (em :: rest) bl =
          dispatchList gp fuel
            (ambs.set k (assignAmb gp fuel (ambs.getD k Ambulance.default) em))
            rest bl := by
        simp only [dispatchList]
        rw [hfn]
      rw [hgoal]
      apply ih
      · intro e he
        exact hid e (mem_mid he)
      · exact nodup_drop_mid hnd
      · intro e he a ha
        rcases List.mem_or_eq_of_mem_set ha with ha | ha
        · exact hdisj e (mem_mid he) a ha
        · rw [ha, (assignAmb_fields gp fuel (ambs.getD k Ambulance.default) em).2.2]
          exact Ne.symm (hfresh e he)
      · intro a ha
        rcases List.mem_or_eq_of_mem_set ha with ha | ha
        · exact hinv a ha
        · rw [ha]
          exact InvAmb_assign gp fuel hembound
      · refine pairwise_set ?_ ?_ k hpw
        · rw [(assignAmb_fields gp fuel (ambs.getD k Ambulance.default) em).2.2]
          omega
        · intro a ha
          rw [(assignAmb_fields gp fuel (ambs.getD k Ambulance.default) em).2.2]
          exact hdisj em hem a ha
    | none =>
      have hgoal : dispatchList gp fuel ambs (em :: rest) bl =
          dispatchList gp fuel ambs rest (bl ++ [em]) := by
        simp only [dispatchList]
        rw [hfn]
      rw [hgoal]
      have hlist : (bl ++ [em]) ++ rest = bl ++ em :: rest := by simp
      apply ih
      · intro e he
        rw [hlist] at he
        exact hid e he
      · rw [hlist]
        exact hnd
      · intro e he
        rw [hlist] at he
        exact hdisj e he
      · exact hinv
      · exact hpw


theorem stepVehicle_idle {gp : GridParams} {fuel : ℕ} {dt dur : ℚ}
    {a : Ambulance} (hstat : a.status = Status.IDLE) :
    stepVehicle gp fuel dt dur a = (a, false) := by
  unfold stepVehicle
  rw [hstat]

theorem stepVehicle_to_scene {gp : GridParams} {fuel : ℕ} {dt dur : ℚ}
    {a : Ambulance} (hstat : a.status = Status.TO_SCENE) :
    stepVehicle gp fuel dt dur a =
      (if (a.path.length : ℤ) ≤ a.currentPathIndex then
        ({ a with status := Status.ON_SCENE, onSceneTimer := dur }, false)
      else if distSq a.pos (a.path.getLastD ⟨0, 0⟩) < 16 then
        ({ a with
            currentPathIndex := (a.path.length : ℤ)
            status := Status.ON_SCENE
            onSceneTimer := dur }, false)
      else (a, false)) := by
  unfold stepVehicle
  rw [hstat]

theorem stepVehicle_on_scene {gp : GridParams} {fuel : ℕ} {dt dur : ℚ}
    {a : Ambulance} (hstat : a.status = Status.ON_SCENE) :
    stepVehicle gp fuel dt dur a =
      (if a.onSceneTimer - dt ≤ 0 then
        ({ a with
            onSceneTimer := a.onSceneTimer - dt
            path := routeOrNil fuel a.pos a.parkingPos gp
            currentPathIndex := 0
            status := Status.RETURNING
            assignedEmergencyId := -1
            assignedPatientName := ""
            assignedHouseId := -1 }, true)
      else ({ a with onSceneTimer := a.onSceneTimer - dt }, false)) := by
  unfold stepVehicle
  rw [hstat]

theorem stepVehicle_returning {gp : GridParams} {fuel : ℕ} {dt dur : ℚ}
    {a : Ambulance} (hstat : a.status = Status.RETURNING) :
    stepVehicle gp fuel dt dur a =
      (if distSq a.pos a.parkingPos < 16 ∨ (a.path.length : ℤ) ≤ a.currentPathIndex then
        ({ a with
            pos := a.parkingPos
            path := []
            currentPathIndex := 0
            status := Status.IDLE
            busy := false }, false)
      else (a, false)) := by
  unfold stepVehicle
  rw [hstat]

theorem stepVehicle_assigned (gp : GridParams) (fuel : ℕ) (dt dur : ℚ)
    (a : Ambulance) :
    ((stepVehicle gp fuel dt dur a).1).assignedEmergencyId = a.assignedEmergencyId ∨
    ((stepVehicle gp fuel dt dur a).1).assignedEmergencyId = -1 := by
  cases hstat : a.status with
  | IDLE =>
    rw [stepVehicle_idle hstat]
    exact Or.inl rfl
  | TO_SCENE =>
    rw [stepVehicle_to_scene hstat]
    split_ifs <;> exact Or.inl rfl
  | ON_SCENE =>
    rw [stepVehicle_on_scene hstat]
    split_ifs
    · exact Or.inr rfl
    · exact Or.inl rfl
  | RETURNING =>
    rw [stepVehicle_returning hstat]
    split_ifs <;> exact Or.inl rfl


theorem InvAmb_step {next : ℤ} (gp : GridParams) (fuel : ℕ) (dt dur : ℚ)
    {a : Ambulance} (hi : InvAmb next a) :
    InvAmb next (stepVehicle gp fuel dt dur a).1 := by
  obtain ⟨h1, h2, h3, h4⟩ := hi
  cases hstat : a.status with
  | IDLE =>
    rw [stepVehicle_idle hstat]
    exact ⟨h1, h2, h3, h4⟩
  | TO_SCENE =>
    rw [hstat] at h1 h2
    rw [stepVehicle_to_scene hstat]
    split_ifs with hc1 hc2
    · refine ⟨?_, ?_, h3, ?_⟩
      · show a.busy = decide (Status.ON_SCENE ≠ Status.IDLE)
        rw [h1]
        decide
      · show a.assignedEmergencyId ≠ -1 ↔
          (Status.ON_SCENE = Status.TO_SCENE ∨ Status.ON_SCENE = Status.ON_SCENE)
        rw [h2]
        simp
      · intro hcon
        simp at hcon
    · refine ⟨?_, ?_, h3, ?_⟩
      · show a.busy = decide (Status.ON_SCENE ≠ Status.IDLE)
        rw [h1]
        decide
      · show a.assignedEmergencyId ≠ -1 ↔
          (Status.ON_SCENE = Status.TO_SCENE ∨ Status.ON_SCENE = Status.ON_SCENE)
        rw [h2]
        simp
      · intro hcon
        simp at hcon
    · refine ⟨?_, ?_, h3, ?_⟩
      · show a.busy = decide (a.status ≠ Status.IDLE)
        rw [hstat]
        exact h1
      · show a.assignedEmergencyId ≠ -1 ↔
          (a.status = Status.TO_SCENE ∨ a.status = Status.ON_SCENE)
        rw [hstat]
        exact h2
      · show a.status = Status.IDLE → a.path = [] ∧ a.currentPathIndex = 0
        rw [hstat]
        intro hcon
        exact absurd hcon (by decide)
  | ON_SCENE =>
    rw [hstat] at h1 h2
    rw [stepVehicle_on_scene hstat]
    split_ifs with hc1
    · refine ⟨?_, ?_, Or.inl rfl, ?_⟩
      · show a.busy = decide (Status.RETURNING ≠ Status.IDLE)
        rw [h1]
        decide
      · show (-1 : ℤ) ≠ -1 ↔
          (Status.RETURNING = Status.TO_SCENE ∨ Status.RETURNING = Status.ON_SCENE)
        simp
      · intro hcon
        simp at hcon
    · refine ⟨?_, ?_, h3, ?_⟩
      · show a.busy = decide (a.status ≠ Status.IDLE)
        rw [hstat]
        exact h1
      · show a.assignedEmergencyId ≠ -1 ↔
          (a.status = Status.TO_SCENE ∨ a.status = Status.ON_SCENE)
        rw [hstat]
        exact h2
      · show a.status = Status.IDLE → a.path = [] ∧ a.currentPathIndex = 0
        rw [hstat]
        intro hcon
        exact absurd hcon (by decide)
  | RETURNING =>
    rw [hstat] at h1 h2
    have hass : a.assignedEmergencyId = -1 := by
      by_contra hc
      rcases h2.mp hc with hcon | hcon <;> exact absurd hcon (by decide)
    rw [stepVehicle_returning hstat]
    split_ifs with hc1
    · refine ⟨?_, ?_, Or.inl hass, ?_⟩
      · show (false : Bool) = decide (Status.IDLE ≠ Status.IDLE)
        decide
      · show a.assignedEmergencyId ≠ -1 ↔
          (Status.IDLE = Status.TO_SCENE ∨ Status.IDLE = Status.ON_SCENE)
        simp [hass]
      · intro _
        exact ⟨rfl, rfl⟩
    · refine ⟨?_, ?_, h3, ?_⟩
      · show a.busy = decide (a.status ≠ Status.IDLE)
        rw [hstat]
        exact h1
      · show a.assignedEmergencyId ≠ -1 ↔
          (a.status = Status.TO_SCENE ∨ a.status = Status.ON_SCENE)
        rw [hstat]
        exact h2
      · show a.status = Status.IDLE → a.path = [] ∧ a.currentPathIndex = 0
        rw [hstat]
        intro hcon
        exact absurd hcon (by decide)

theorem InvAmb_motion {next : ℤ} {a b : Ambulance} (hm : motionVeh a b)
    (hi : InvAmb next a) : InvAmb next b := by
  obtain ⟨hid, hpark, hspeed, hpath, hbusy, hass, hname, hhouse, hstatus, htimer, hidx⟩ := hm
  obtain ⟨h1, h2, h3, h4⟩ := hi
  refine ⟨?_, ?_, ?_, ?_⟩
  · rw [hbusy, hstatus]
    exact h1
  · rw [hass, hstatus]
    exact h2
  · rw [hass]
    exact h3
  · rw [hstatus, hpath]
    intro hidle
    obtain ⟨hp, hix⟩ := h4 hidle
    refine ⟨hp, ?_⟩
    rcases hidx with hix2 | ⟨hlt, _⟩
    · rw [hix2, hix]
    · rw [hp, hix] at hlt
      simp at hlt

theorem PDistinct_motion {a b a2 b2 : Ambulance} (hma : motionVeh a a2)
    (hmb : motionVeh b b2) (hp : PDistinct a b) : PDistinct a2 b2 := by
  obtain ⟨_, _, _, _, _, hassa, _⟩ := hma
  obtain ⟨_, _, _, _, _, hassb, _⟩ := hmb
  rcases hp with hp | hp
  · exact Or.inl (by rw [hassa, hp])
  · exact Or.inr (by rw [hassa, hassb]; exact hp)

theorem PDistinct_step (gp : GridParams) (fuel : ℕ) (dt dur : ℚ)
    {a b : Ambulance} (hp : PDistinct a b) :
    PDistinct (stepVehicle gp fuel dt dur a).1 (stepVehicle gp fuel dt dur b).1 := by
  rcases stepVehicle_assigned gp fuel dt dur a with ha2 | ha2
  · rcases hp with hp | hp
    · exact Or.inl (by rw [ha2, hp])
    · rcases stepVehicle_assigned gp fuel dt dur b with hb2 | hb2
      · exact Or.inr (by rw [ha2, hb2]; exact hp)
      · by_cases hz : a.assignedEmergencyId = -1
        · exact Or.inl (by rw [ha2, hz])
        · exact Or.inr (by rw [ha2, hb2]; exact fun hc => hz hc)
  · exact Or.inl ha2

/-- Every state reachable from a freshly constructed hospital satisfies
the hospital invariant. -/
theorem reachable_inv {gp : GridParams} {fuel : ℕ} {h : Hospital}
    (hr : Reachable gp fuel h) : HospInv h := by
  induction hr with
  | init loc parking sid dur =>
    refine ⟨le_refl 1, ?_, ?_, ?_, ?_, ?_⟩
    · intro e he
      simp [Hospital.init] at he
    · simp [Hospital.init]
    · intro e he
      simp [Hospital.init] at he
    · intro a ha
      simp only [Hospital.init, List.mem_map] at ha
      obtain ⟨kp, _, hkp⟩ := ha
      rw [← hkp]
      refine ⟨rfl, ?_, Or.inl rfl, fun _ => ⟨rfl, rfl⟩⟩
      show (-1 : ℤ) ≠ -1 ↔ (Status.IDLE = Status.TO_SCENE ∨ Status.IDLE = Status.ON_SCENE)
      simp
    · apply List.pairwise_of_forall_mem_list
      intro a ha b hb
      simp only [Hospital.init, List.mem_map] at ha
      obtain ⟨kp, _, hkp⟩ := ha
      left
      rw [← hkp]
      rfl
  | @step hp hc hr hs ih =>
    obtain ⟨g1, g2, g3, g4, g5, g6⟩ := ih
    cases hs with
    | receive now inc =>
      unfold receiveEmergency
      refine ⟨by show (1 : ℤ) ≤ hp.nextEmergencyId + 1; omega, ?_, ?_, ?_, ?_, g6⟩
      · intro e he
        rcases List.mem_append.mp he with he | he
        · have := g2 e he
          constructor
          · omega
          · show e.id < hp.nextEmergencyId + 1
            omega
        · rcases List.mem_singleton.mp he with rfl
          constructor
          · exact g1
          · show hp.nextEmergencyId < hp.nextEmergencyId + 1
            omega
      · rw [List.map_append]
        refine List.Nodup.append g3 (by simp) ?_
        intro x hx hx2
        rcases List.mem_map.mp hx with ⟨e, he, hex⟩
        rcases List.mem_singleton.mp (by simpa using hx2) with rfl
        have := g2 e he
        omega
      · intro e he a ha
        rcases List.mem_append.mp he with he | he
        · exact g4 e he a ha
        · rcases List.mem_singleton.mp he with rfl
          obtain ⟨_, _, h3, _⟩ := g5 a ha
          show a.assignedEmergencyId ≠ hp.nextEmergencyId
          rcases h3 with h3 | h3 <;> omega
      · intro a ha
        exact InvAmb_mono
          (by show hp.nextEmergencyId ≤ hp.nextEmergencyId + 1; omega) (g5 a ha)
    | motion ambs2 hm =>
      refine ⟨g1, g2, g3, ?_, ?_, ?_⟩
      · intro e he b hb
        obtain ⟨a, ha, hR⟩ := forall₂_mem_right hm b hb
        obtain ⟨_, _, _, _, _, hass, _⟩ := hR
        rw [hass]
        exact g4 e he a ha
      · intro b hb
        obtain ⟨a, ha, hR⟩ := forall₂_mem_right hm b hb
        exact InvAmb_motion hR (g5 a ha)
      · exact pairwise_of_forall₂
          (fun (a b a2 b2 : Ambulance) (hma : motionVeh a a2) (hmb : motionVeh b b2)
            (hpd : PDistinct a b) => PDistinct_motion hma hmb hpd) hm g6
    | dispatch =>
      have hd : dispatchVehicles gp fuel hp =
          { hp with
              ambulances := (dispatchList gp fuel hp.ambulances (peekAll hp.queue_) []).1
              queue_ := (dispatchList gp fuel hp.ambulances (peekAll hp.queue_) []).2 } := by
        unfold dispatchVehicles
        rw [drainDispatch_eq_dispatchList]
      rw [hd]
      have hmem : ∀ e : Emergency, e ∈ peekAll hp.queue_ → e ∈ hp.queue_ :=
        fun e he => (peekAll_perm hp.queue_).mem_iff.mp he
      have hinv := dispatchList_inv gp fuel hp.nextEmergencyId (peekAll hp.queue_)
        hp.ambulances []
        (by intro e he; simp only [List.nil_append] at he; exact g2 e (hmem e he))
        (by
          simp only [List.nil_append]
          exact (List.Perm.nodup_iff ((peekAll_perm hp.queue_).map Emergency.id)).mpr g3)
        (by
          intro e he a ha
          simp only [List.nil_append] at he
          exact g4 e (hmem e he) a ha)
        g5 g6
      obtain ⟨c1, c2, c3, c4, c5⟩ := hinv
      exact ⟨g1, c3, c4, c5, c1, c2⟩
    | update dt =>
      have hu : updateAfterMovement gp fuel dt hp =
          { hp with
              ambulances := hp.ambulances.map
                (fun a => (stepVehicle gp fuel dt hp.onSceneDurationSec a).1)
              handledCount := hp.handledCount +
                (((hp.ambulances.map
                  (stepVehicle gp fuel dt hp.onSceneDurationSec)).filter
                    Prod.snd).length : ℤ) } := by
        unfold updateAfterMovement
        simp only [List.map_map]
        rfl
      rw [hu]
      refine ⟨g1, g2, g3, ?_, ?_, ?_⟩
      · intro e he b hb
        obtain ⟨a, ha, hab⟩ := List.mem_map.mp hb
        rcases stepVehicle_assigned gp fuel dt hp.onSceneDurationSec a with h2 | h2
        · rw [← hab, h2]
          exact g4 e he a ha
        · rw [← hab, h2]
          have := g2 e he
          omega
      · intro b hb
        obtain ⟨a, ha, hab⟩ := List.mem_map.mp hb
        rw [← hab]
        exact InvAmb_step gp fuel dt hp.onSceneDurationSec (g5 a ha)
      · show List.Pairwise PDistinct (hp.ambulances.map
          (fun a => (stepVehicle gp fuel dt hp.onSceneDurationSec a).1))
        exact List.Pairwise.map _
          (fun a b hp2 => PDistinct_step gp fuel dt hp.onSceneDurationSec hp2) g6

theorem emergencyCompare_irrefl (a : Emergency) : emergencyCompare a a = false := by
  unfold emergencyCompare
  simp

theorem emergencyCompare_trans {a b c : Emergency}
    (h1 : emergencyCompare a b = true) (h2 : emergencyCompare b c = true) :
    emergencyCompare a c = true := by
  unfold emergencyCompare at h1 h2
  by_cases hab : a.priority = b.priority <;> by_cases hbc : b.priority = c.priority
  · simp [hab] at h1
    simp [hbc] at h2
    have hac : a.priority = c.priority := hab.trans hbc
    unfold emergencyCompare
    simp [hac]
    exact lt_trans h2 h1
  · simp [hab] at h1
    simp [hbc] at h2
    have hne : a.priority ≠ c.priority := by omega
    have hgt : c.priority < a.priority := by omega
    unfold emergencyCompare
    rw [if_pos hne]
    simpa using hgt
  · simp [hab] at h1
    simp [hbc] at h2
    have hne : a.priority ≠ c.priority := by omega
    have hgt : c.priority < a.priority := by omega
    unfold emergencyCompare
    rw [if_pos hne]
    simpa using hgt
  · simp [hab] at h1
    simp [hbc] at h2
    have hne : a.priority ≠ c.priority := by omega
    have hgt : c.priority < a.priority := by omega
    unfold emergencyCompare
    rw [if_pos hne]
    simpa using hgt

theorem lexLe_antisymm_keys {a b : Emergency} (h1 : lexLe a b) (h2 : lexLe b a) :
    a.priority = b.priority ∧ a.createdAt = b.createdAt := by
  unfold lexLe at h1 h2
  rcases h1 with h1 | ⟨h1p, h1c⟩ <;> rcases h2 with h2 | ⟨h2p, h2c⟩
  · exact absurd h2 (by omega)
  · exact absurd h1 (by omega)
  · exact absurd h2 (by omega)
  · exact ⟨h1p, le_antisymm h1c h2c⟩

/-- C1: the pending queue is governed by a strict weak ordering with
primary key priority ascending and secondary key createdAt ascending:
the EmergencyCompare relation is irreflexive and transitive with
transitive incomparability; peekAllPending, modelled by peekAll, always
lists the backlog sorted by (priority ascending, createdAt ascending)
while preserving the queue contents; and an element with a strictly
lower priority number is always placed ahead of every element with a
higher priority number, regardless of the order of receive and dispatch
operations that built the queue. -/
theorem claim_queue_ordering :
    (∀ a : Emergency, emergencyCompare a a = false) ∧
    (∀ a b c : Emergency, emergencyCompare a b = true → emergencyCompare b c = true →
      emergencyCompare a c = true) ∧
    (∀ a b c : Emergency,
      emergencyCompare a b = false → emergencyCompare b a = false →
      emergencyCompare b c = false → emergencyCompare c b = false →
      emergencyCompare a c = false) ∧
    (∀ q : List Emergency, (peekAll q).Pairwise lexLe ∧ (peekAll q).Perm q) ∧
    (∀ (q : List Emergency) (i j : Fin (peekAll q).length),
      ((peekAll q).get i).priority < ((peekAll q).get j).priority → i < j) := by
  refine ⟨emergencyCompare_irrefl, fun a b c => emergencyCompare_trans, ?_, ?_, ?_⟩
  · intro a b c h1 h2 h3 h4
    have k1 := lexLe_antisymm_keys ((emergencyCompare_false_iff a b).mp h1)
      ((emergencyCompare_false_iff b a).mp h2)
    have k2 := lexLe_antisymm_keys ((emergencyCompare_false_iff b c).mp h3)
      ((emergencyCompare_false_iff c b).mp h4)
    refine (emergencyCompare_false_iff a c).mpr ?_
    exact Or.inr ⟨k1.1.trans k2.1, le_of_eq (k1.2.trans k2.2)⟩
  · intro q
    exact ⟨peekAll_sorted q, peekAll_perm q⟩
  · intro q i j hlt
    by_contra hnot
    have hji : j ≤ i := Nat.le_of_not_lt (by simpa using hnot)
    rcases Nat.lt_or_ge j.val i.val with hj | hj
    · have := (List.pairwise_iff_get.mp (peekAll_sorted q)) j i hj
      unfold lexLe at this
      rcases this with h | ⟨h, _⟩ <;> omega
    · have hij : i = j := Fin.ext (by omega)
      rw [hij] at hlt
      exact absurd hlt (lt_irrefl _)

/-- Sample data used by witnesses. -/
def samplePatient : PatientInfo :=
  { name := "Ann", age := 30, severity := "High", desc := "pain", houseNumber := 2 }

def sampleE1 : Emergency :=
  { id := 1, patient := samplePatient, location := ⟨3, 4⟩, priority := 3,
    createdAt := 5, assignedHospital := 0 }

def sampleE2 : Emergency :=
  { id := 2, patient := samplePatient, location := ⟨1, 1⟩, priority := 2,
    createdAt := 7, assignedHospital := 0 }

def sampleE3 : Emergency :=
  { id := 3, patient := samplePatient, location := ⟨0, 0⟩, priority := 1,
    createdAt := 9, assignedHospital := 0 }

theorem claim_queue_ordering_witness :
    emergencyCompare sampleE1 sampleE2 = true ∧
    emergencyCompare sampleE2 sampleE3 = true ∧
    emergencyCompare sampleE1 sampleE3 = true ∧
    (peekAll [sampleE1, sampleE3, sampleE2]).Pairwise lexLe :=
  ⟨by decide, by decide,
    claim_queue_ordering.2.1 sampleE1 sampleE2 sampleE3 (by decide) (by decide),
    (claim_queue_ordering.2.2.2.1 [sampleE1, sampleE3, sampleE2]).1⟩

/-- C3: after every reachable sequence of operations (in particular after
every dispatch-then-update tick), an emergency id is in exactly one
place: an id still in the queue is assigned to no ambulance, queued ids
are pairwise distinct, and no two ambulances carry the same real
assignment, so a popped id is held by at most one vehicle. -/
theorem claim_emergency_single_residence (gp : GridParams) (fuel : ℕ)
    (h : Hospital) (hr : Reachable gp fuel h) :
    (∀ e ∈ h.queue_, ∀ a ∈ h.ambulances, a.assignedEmergencyId ≠ e.id) ∧
    (h.queue_.map Emergency.id).Nodup ∧
    h.ambulances.Pairwise PDistinct := by
  obtain ⟨_, _, g3, g4, _, g6⟩ := reachable_inv hr
  exact ⟨g4, g3, g6⟩

/-- C9: in every reachable state the busy flag of an ambulance equals
(status is not IDLE), so the dispatch eligibility test (IDLE and not
busy) degenerates to the IDLE test alone. -/
theorem claim_busy_mirrors_status (gp : GridParams) (fuel : ℕ)
    (h : Hospital) (hr : Reachable gp fuel h) :
    ∀ a ∈ h.ambulances,
      a.busy = decide (a.status ≠ Status.IDLE) ∧
      ((a.status = Status.IDLE ∧ a.busy = false) ↔ a.status = Status.IDLE) := by
  intro a ha
  obtain ⟨_, _, _, _, g5, _⟩ := reachable_inv hr
  obtain ⟨h1, _, _, _⟩ := g5 a ha
  refine ⟨h1, ?_, ?_⟩
  · exact fun hc => hc.1
  · intro hidle
    refine ⟨hidle, ?_⟩
    rw [h1, hidle]
    decide

/-- Concrete scenario driving one ambulance through a full call:
construction, one intake at the parking point, one dispatch, the arrival
update, and a long update that expires the scene timer. -/
def cgp : GridParams := ⟨0, 0, 2, 1, 1⟩

def cem : Emergency :=
  { id := 0, patient := samplePatient, location := ⟨0, 0⟩, priority := 1,
    createdAt := 0, assignedHospital := 0 }

def cInit : Hospital := Hospital.init ⟨0, 0⟩ [⟨0, 0⟩] 1 4

def cAfterReceive : Hospital := receiveEmergency 0 cem cInit

def cAfterDispatch : Hospital := dispatchVehicles cgp 9 cAfterReceive

def cAfterArrive : Hospital := updateAfterMovement cgp 9 1 cAfterDispatch

def cFinal : Hospital := updateAfterMovement cgp 9 5 cAfterArrive

/-- The emergency as stamped by the intake call of the scenario. -/
def cem1 : Emergency := { cem with id := 1, createdAt := 0 }

/-- The single ambulance as constructed by the scenario hospital. -/
def camb0 : Ambulance :=
  { Ambulance.default with
      id := 1, parkingPos := ⟨0, 0⟩, pos := ⟨0, 0⟩, status := Status.IDLE }

theorem cInit_ambs : cInit.ambulances = [camb0] := rfl

theorem croute : routeOrNil 9 ⟨0, 0⟩ ⟨0, 0⟩ cgp = [⟨0, 0⟩, ⟨0, 0⟩] := by
  norm_num [routeOrNil, findPathOnRoads, findNearestRoadPoint, intersections, cgp,
    List.range_succ, distSq, buildPath]

/-- The scenario ambulance right after being matched. -/
def camb1 : Ambulance := assignAmb cgp 9 camb0 cem1

/-- The scenario ambulance after arrival on scene. -/
def camb2 : Ambulance :=
  { camb1 with
      currentPathIndex := (camb1.path.length : ℤ)
      status := Status.ON_SCENE
      onSceneTimer := 4 }

/-- The scenario ambulance after the scene timer expires: RETURNING with
the assignment cleared. -/
def camb3 : Ambulance :=
  { camb2 with
      onSceneTimer := camb2.onSceneTimer - 5
      path := routeOrNil 9 camb2.pos camb2.parkingPos cgp
      currentPathIndex := 0
      status := Status.RETURNING
      assignedEmergencyId := -1
      assignedPatientName := ""
      assignedHouseId := -1 }

theorem cAfterDispatch_eq :
    cAfterDispatch = { cAfterReceive with ambulances := [camb1], queue_ := [] } := by
  have hd : dispatchVehicles cgp 9 cAfterReceive =
      { cAfterReceive with
          ambulances :=
            (dispatchList cgp 9 cAfterReceive.ambulances (peekAll cAfterReceive.queue_) []).1
          queue_ :=
            (dispatchList cgp 9 cAfterReceive.ambulances (peekAll cAfterReceive.queue_) []).2 } := by
    unfold dispatchVehicles
    rw [drainDispatch_eq_dispatchList]
  have hq : cAfterReceive.queue_ = [cem1] := rfl
  have hpk : peekAll cAfterReceive.queue_ = [cem1] := by
    rw [hq, peekAll_of_popBest (show popBest [cem1] = some (cem1, []) from rfl), peekAll_nil]
  have hra : cAfterReceive.ambulances = [camb0] := cInit_ambs
  have hfn : findNearestAvailableAmbulance cAfterReceive.ambulances cem1.location
      = some 0 := by decide
  have hdl : dispatchList cgp 9 cAfterReceive.ambulances [cem1] [] = ([camb1], []) := by
    simp only [dispatchList]
    rw [hfn]
    show dispatchList cgp 9
      (cAfterReceive.ambulances.set 0
        (assignAmb cgp 9 (cAfterReceive.ambulances.getD 0 Ambulance.default) cem1)) [] []
      = ([camb1], [])
    rw [hra]
    rfl
  show dispatchVehicles cgp 9 cAfterReceive = _
  rw [hd, hpk, hdl]

theorem cstep1 : stepVehicle cgp 9 1 4 camb1 = (camb2, false) := by
  have hpath : camb1.path = [⟨0, 0⟩, ⟨0, 0⟩] := croute
  have hc1 : ¬((camb1.path.length : ℤ) ≤ camb1.currentPathIndex) := by
    rw [hpath]
    show ¬((2 : ℤ) ≤ 0)
    decide
  have hc2 : distSq camb1.pos (camb1.path.getLastD ⟨0, 0⟩) < 16 := by
    rw [hpath]
    show distSq ⟨0, 0⟩ ⟨0, 0⟩ < 16
    norm_num [distSq]
  rw [stepVehicle_to_scene rfl, if_neg hc1, if_pos hc2]
  rfl

theorem cstep2 : stepVehicle cgp 9 5 4 camb2 = (camb3, true) := by
  have hc : camb2.onSceneTimer - 5 ≤ 0 := by
    show (4 : ℚ) - 5 ≤ 0
    norm_num
  rw [stepVehicle_on_scene rfl, if_pos hc]
  rfl

theorem cFinal_ambs : cFinal.ambulances = [camb3] := by
  have h5 : cFinal.ambulances =
      (cAfterArrive.ambulances.map
        (stepVehicle cgp 9 5 cAfterArrive.onSceneDurationSec)).map Prod.fst := rfl
  have h6 : cAfterArrive.ambulances =
      (cAfterDispatch.ambulances.map
        (stepVehicle cgp 9 1 cAfterDispatch.onSceneDurationSec)).map Prod.fst := rfl
  have hca : cAfterDispatch.ambulances = [camb1] := by rw [cAfterDispatch_eq]
  have h7 : cAfterArrive.onSceneDurationSec = 4 := rfl
  have h8 : cAfterDispatch.onSceneDurationSec = 4 := rfl
  rw [h5, h6, h8, hca, h7]
  simp only [List.map_cons, List.map_nil]
  rw [cstep1]
  simp only [List.map_cons, List.map_nil]
  rw [cstep2]

/-- C4 counterexample: the claim says the assignment is present exactly
when the status is not Idle, but in the reachable state cFinal the only
ambulance is RETURNING while its assignment fields are already cleared
(assignedEmergencyId is back to -1). -/
theorem claim_assignment_iff_not_idle_counterexample :
    Reachable cgp 9 cFinal ∧
    ∃ a ∈ cFinal.ambulances,
      a.status = Status.RETURNING ∧ a.assignedEmergencyId = -1 := by
  constructor
  · exact Reachable.step (Reachable.step (Reachable.step (Reachable.step
      (Reachable.init ⟨0, 0⟩ [⟨0, 0⟩] 1 4)
      (Step.receive cInit 0 cem))
      (Step.dispatch cAfterReceive))
      (Step.update cAfterDispatch 1))
      (Step.update cAfterArrive 5)
  · rw [cFinal_ambs]
    exact ⟨camb3, List.mem_cons_self camb3 [], rfl, rfl⟩

/-- C4 (amended): in every reachable state an ambulance has its
assignment set if and only if its status is TO_SCENE or ON_SCENE; a
RETURNING ambulance has already cleared its assignment; and an Idle
ambulance has no assignment and an empty route. -/
theorem claim_assignment_iff_active (gp : GridParams) (fuel : ℕ)
    (h : Hospital) (hr : Reachable gp fuel h) :
    ∀ a ∈ h.ambulances,
      (a.assignedEmergencyId ≠ -1 ↔
        (a.status = Status.TO_SCENE ∨ a.status = Status.ON_SCENE)) ∧
      (a.status = Status.RETURNING → a.assignedEmergencyId = -1) ∧
      (a.status = Status.IDLE →
        a.assignedEmergencyId = -1 ∧ a.path = [] ∧ a.currentPathIndex = 0) := by
  intro a ha
  obtain ⟨_, _, _, _, g5, _⟩ := reachable_inv hr
  obtain ⟨_, h2, _, h4⟩ := g5 a ha
  refine ⟨h2, ?_, ?_⟩
  · intro hret
    by_contra hc
    rcases h2.mp hc with hcon | hcon <;>
      (rw [hret] at hcon; exact absurd hcon (by decide))
  · intro hidle
    refine ⟨?_, (h4 hidle).1, (h4 hidle).2⟩
    by_contra hc
    rcases h2.mp hc with hcon | hcon <;>
      (rw [hidle] at hcon; exact absurd hcon (by decide))

theorem claim_assignment_iff_active_witness :
    (camb0.assignedEmergencyId ≠ -1 ↔
      (camb0.status = Status.TO_SCENE ∨ camb0.status = Status.ON_SCENE)) ∧
    (camb0.status = Status.RETURNING → camb0.assignedEmergencyId = -1) ∧
    (camb0.status = Status.IDLE →
      camb0.assignedEmergencyId = -1 ∧ camb0.path = [] ∧ camb0.currentPathIndex = 0) :=
  claim_assignment_iff_active cgp 9 cInit (Reachable.init ⟨0, 0⟩ [⟨0, 0⟩] 1 4)
    camb0 (by rw [cInit_ambs]; exact List.mem_singleton.mpr rfl)

theorem claim_emergency_single_residence_witness :
    (∀ e ∈ cInit.queue_, ∀ a ∈ cInit.ambulances, a.assignedEmergencyId ≠ e.id) ∧
    (cInit.queue_.map Emergency.id).Nodup ∧
    cInit.ambulances.Pairwise PDistinct :=
  claim_emergency_single_residence cgp 9 cInit (Reachable.init ⟨0, 0⟩ [⟨0, 0⟩] 1 4)

theorem claim_busy_mirrors_status_witness :
    camb0.busy = decide (camb0.status ≠ Status.IDLE) ∧
    ((camb0.status = Status.IDLE ∧ camb0.busy = false) ↔ camb0.status = Status.IDLE) :=
  claim_busy_mirrors_status cgp 9 cInit (Reachable.init ⟨0, 0⟩ [⟨0, 0⟩] 1 4)
    camb0 (by rw [cInit_ambs]; exact List.mem_singleton.mpr rfl)

/-- C10: receiveEmergency ignores the id and createdAt fields of its
argument and overwrites them with the internal counter and the current
clock, leaving every other field unchanged; the counter starts at 1 at
construction, increments by one per call, and its value is fresh (held
by no queued emergency and no ambulance assignment), so ids are
consecutive from 1 and never reused. -/
theorem claim_receive_stamps (gp : GridParams) (fuel : ℕ) (h : Hospital)
    (now : ℚ) (inc : Emergency) (hr : Reachable gp fuel h) :
    (receiveEmergency now inc h).queue_ =
      h.queue_ ++ [{ inc with id := h.nextEmergencyId, createdAt := now }] ∧
    (receiveEmergency now inc h).nextEmergencyId = h.nextEmergencyId + 1 ∧
    1 ≤ h.nextEmergencyId ∧
    (∀ e ∈ h.queue_, e.id ≠ h.nextEmergencyId) ∧
    (∀ a ∈ h.ambulances, a.assignedEmergencyId ≠ h.nextEmergencyId) ∧
    (∀ (loc : Point) (parking : List Point) (sid : ℤ) (dur : ℚ),
      (Hospital.init loc parking sid dur).nextEmergencyId = 1) := by
  obtain ⟨g1, g2, _, _, g5, _⟩ := reachable_inv hr
  refine ⟨rfl, rfl, g1, ?_, ?_, fun _ _ _ _ => rfl⟩
  · intro e he
    have := g2 e he
    omega
  · intro a ha
    obtain ⟨_, _, h3, _⟩ := g5 a ha
    rcases h3 with h3 | h3 <;> omega

theorem claim_receive_stamps_witness :
    (receiveEmergency 0 cem cInit).queue_ =
      cInit.queue_ ++ [{ cem with id := cInit.nextEmergencyId, createdAt := 0 }] ∧
    (receiveEmergency 0 cem cInit).nextEmergencyId = cInit.nextEmergencyId + 1 ∧
    1 ≤ cInit.nextEmergencyId ∧
    (∀ e ∈ cInit.queue_, e.id ≠ cInit.nextEmergencyId) ∧
    (∀ a ∈ cInit.ambulances, a.assignedEmergencyId ≠ cInit.nextEmergencyId) ∧
    (∀ (loc : Point) (parking : List Point) (sid : ℤ) (dur : ℚ),
      (Hospital.init loc parking sid dur).nextEmergencyId = 1) :=
  claim_receive_stamps cgp 9 cInit 0 cem (Reachable.init ⟨0, 0⟩ [⟨0, 0⟩] 1 4)

/-- C7: an ambulance in TO_SCENE transitions to ON_SCENE during the
update step exactly when its route cursor has consumed all waypoints or
its remaining distance to the final waypoint is below the 4-unit arrival
threshold (compared here as squared distance below 16), and every such
transition sets the scene timer exactly to the configured on-scene
duration. -/
theorem claim_to_scene_arrival (gp : GridParams) (fuel : ℕ) (dt dur : ℚ)
    (a : Ambulance) (hstat : a.status = Status.TO_SCENE) :
    ((stepVehicle gp fuel dt dur a).1.status = Status.ON_SCENE ↔
      ((a.path.length : ℤ) ≤ a.currentPathIndex ∨
        distSq a.pos (a.path.getLastD ⟨0, 0⟩) < 16)) ∧
    ((stepVehicle gp fuel dt dur a).1.status = Status.ON_SCENE →
      (stepVehicle gp fuel dt dur a).1.onSceneTimer = dur) := by
  rw [stepVehicle_to_scene hstat]
  split_ifs with hc1 hc2
  · exact ⟨iff_of_true rfl (Or.inl hc1), fun _ => rfl⟩
  · exact ⟨iff_of_true rfl (Or.inr hc2), fun _ => rfl⟩
  · refine ⟨iff_of_false ?_ ?_, ?_⟩
    · intro hc
      exact Status.noConfusion (hstat.symm.trans hc)
    · rintro (hcon | hcon)
      · exact hc1 hcon
      · exact hc2 hcon
    · intro hcon
      exact absurd (hstat.symm.trans hcon) (by decide)

/-- An ambulance en route and within the arrival threshold. -/
def sampleAmbTS : Ambulance :=
  { Ambulance.default with
      status := Status.TO_SCENE
      busy := true
      assignedEmergencyId := 1
      path := [⟨0, 0⟩, ⟨3, 0⟩]
      currentPathIndex := 0
      pos := ⟨1, 0⟩ }

theorem claim_to_scene_arrival_witness :
    sampleAmbTS.status = Status.TO_SCENE ∧
    ((stepVehicle cgp 9 1 4 sampleAmbTS).1.status = Status.ON_SCENE ↔
      ((sampleAmbTS.path.length : ℤ) ≤ sampleAmbTS.currentPathIndex ∨
        distSq sampleAmbTS.pos (sampleAmbTS.path.getLastD ⟨0, 0⟩) < 16)) ∧
    ((stepVehicle cgp 9 1 4 sampleAmbTS).1.status = Status.ON_SCENE →
      (stepVehicle cgp 9 1 4 sampleAmbTS).1.onSceneTimer = 4) :=
  ⟨by decide, claim_to_scene_arrival cgp 9 1 4 sampleAmbTS (by decide)⟩

/-- A roster slot that is already TO_SCENE when the remainder of a
dispatch pass starts keeps its status and its assignment to the end of
the pass: the nearest-ambulance scan only ever picks idle slots. -/
theorem dispatchList_keeps_assigned (gp : GridParams) (fuel : ℕ)
    (ems : List Emergency) (ambs : List Ambulance) (bl : List Emergency)
    (k : ℕ) (hk : k < ambs.length)
    (hstat : (ambs.getD k Ambulance.default).status = Status.TO_SCENE) :
    ((dispatchList gp fuel ambs ems bl).1.getD k Ambulance.default).status
        = Status.TO_SCENE ∧
    ((dispatchList gp fuel ambs ems bl).1.getD k Ambulance.default).assignedEmergencyId
        = (ambs.getD k Ambulance.default).assignedEmergencyId := by
  rcases dispatchList_get gp fuel ems ambs bl k hk with h | ⟨em2, _, hidle, _, _⟩
  · rw [h]
    exact ⟨hstat, rfl⟩
  · rw [hstat] at hidle
    exact absurd hidle (by decide)

/-- No starvation within a pass: as soon as some roster slot is idle and
non-busy, the first (best) emergency of the pass is matched — the
resulting backlog draws only on the remaining emergencies, and some final
slot is en route with that emergency as its assignment. -/
theorem dispatchList_head_matched (gp : GridParams) (fuel : ℕ)
    (b : Emergency) (rest2 : List Emergency) (ambs : List Ambulance)
    (helig : ∃ a ∈ ambs, a.status = Status.IDLE ∧ a.busy = false) :
    List.Sublist (dispatchList gp fuel ambs (b :: rest2) []).2 rest2 ∧
    ∃ a ∈ (dispatchList gp fuel ambs (b :: rest2) []).1,
      a.status = Status.TO_SCENE ∧ a.assignedEmergencyId = b.id := by
  cases hk : findNearestAvailableAmbulance ambs b.location with
  | none =>
    exfalso
    obtain ⟨a, ha, hstat2, hbusy2⟩ := helig
    obtain ⟨⟨j, hj⟩, haj⟩ := List.mem_iff_get.mp ha
    exact findNearest_none hk j hj
      ⟨by rw [haj]; exact hstat2, by rw [haj]; exact hbusy2⟩
  | some k =>
    obtain ⟨hklen, _, _, _⟩ := findNearest_some hk
    have hstep : dispatchList gp fuel ambs (b :: rest2) [] =
        dispatchList gp fuel
          (ambs.set k (assignAmb gp fuel (ambs.getD k Ambulance.default) b))
          rest2 [] := by
      simp only [dispatchList]
      rw [hk]
    rw [hstep]
    have hk2 : k < (ambs.set k
        (assignAmb gp fuel (ambs.getD k Ambulance.default) b)).length := by
      simpa using hklen
    have hslot : (ambs.set k
        (assignAmb gp fuel (ambs.getD k Ambulance.default) b)).getD k
        Ambulance.default = assignAmb gp fuel (ambs.getD k Ambulance.default) b :=
      getD_set_self hklen
    constructor
    · obtain ⟨s, hs1, hs2, _⟩ := dispatchList_backlog gp fuel rest2
        (ambs.set k (assignAmb gp fuel (ambs.getD k Ambulance.default) b)) []
      rw [hs1]
      simpa using hs2
    · have hstat2 : ((ambs.set k
          (assignAmb gp fuel (ambs.getD k Ambulance.default) b)).getD k
          Ambulance.default).status = Status.TO_SCENE := by
        rw [hslot]
        exact (assignAmb_fields gp fuel (ambs.getD k Ambulance.default) b).1
      have hres := dispatchList_keeps_assigned gp fuel rest2
        (ambs.set k (assignAmb gp fuel (ambs.getD k Ambulance.default) b)) [] k
        hk2 hstat2
      have hlen : k < (dispatchList gp fuel
          (ambs.set k (assignAmb gp fuel (ambs.getD k Ambulance.default) b))
          rest2 []).1.length := by
        rw [dispatchList_length]
        exact hk2
      refine ⟨(dispatchList gp fuel
          (ambs.set k (assignAmb gp fuel (ambs.getD k Ambulance.default) b))
          rest2 []).1.getD k Ambulance.default, ?_, hres.1, ?_⟩
      · rw [← get_eq_getD hlen]
        exact List.get_mem _ _ _
      · rw [hres.2, hslot]
        exact (assignAmb_fields gp fuel (ambs.getD k Ambulance.default) b).2.2

/-- C5: emergencies that fail to match are re-pushed with id, priority
and createdAt unchanged (they are literally the same records), the queue
after a dispatch call is a subsequence of the best-first listing of the
queue before it and is itself still in best-first order (so unmatched
emergencies keep their relative positions across any number of
consecutive passes), every emergency of the original queue either
survives into the new queue or is now the assignment of some ambulance,
and — the no-starvation part — as soon as some ambulance is idle the
best emergency of the pass leaves the queue and becomes the TO_SCENE
assignment of some ambulance. -/
theorem claim_backlog_preserved (gp : GridParams) (fuel : ℕ) (h : Hospital) :
    List.Sublist ((dispatchVehicles gp fuel h).queue_) (peekAll h.queue_) ∧
    peekAll ((dispatchVehicles gp fuel h).queue_) = (dispatchVehicles gp fuel h).queue_ ∧
    (∀ e ∈ h.queue_, e ∈ (dispatchVehicles gp fuel h).queue_ ∨
      ∃ a ∈ (dispatchVehicles gp fuel h).ambulances, a.assignedEmergencyId = e.id) ∧
    (∀ e ∈ (dispatchVehicles gp fuel h).queue_, e ∈ h.queue_) ∧
    (∀ b rest2, peekAll h.queue_ = b :: rest2 →
      (∃ a ∈ h.ambulances, a.status = Status.IDLE ∧ a.busy = false) →
      List.Sublist ((dispatchVehicles gp fuel h).queue_) rest2 ∧
      ∃ a ∈ (dispatchVehicles gp fuel h).ambulances,
        a.status = Status.TO_SCENE ∧ a.assignedEmergencyId = b.id) := by
  have hd : dispatchVehicles gp fuel h =
      { h with
          ambulances := (dispatchList gp fuel h.ambulances (peekAll h.queue_) []).1
          queue_ := (dispatchList gp fuel h.ambulances (peekAll h.queue_) []).2 } := by
    unfold dispatchVehicles
    rw [drainDispatch_eq_dispatchList]
  rw [hd]
  obtain ⟨s, h1, h2, h3⟩ := dispatchList_backlog gp fuel (peekAll h.queue_) h.ambulances []
  simp only [List.nil_append] at h1
  refine ⟨?_, ?_, ?_, ?_, ?_⟩
  · show List.Sublist (dispatchList gp fuel h.ambulances (peekAll h.queue_) []).2
      (peekAll h.queue_)
    rw [h1]
    exact h2
  · show peekAll (dispatchList gp fuel h.ambulances (peekAll h.queue_) []).2
      = (dispatchList gp fuel h.ambulances (peekAll h.queue_) []).2
    rw [h1]
    exact peekAll_of_sorted (List.Pairwise.sublist h2 (peekAll_sorted h.queue_))
  · intro e he
    have hpk : e ∈ peekAll h.queue_ := (peekAll_perm h.queue_).mem_iff.mpr he
    rcases h3 e hpk with hin | ⟨i, hil, hass⟩
    · left
      show e ∈ (dispatchList gp fuel h.ambulances (peekAll h.queue_) []).2
      rw [h1]
      exact hin
    · right
      have hlen : i < (dispatchList gp fuel h.ambulances (peekAll h.queue_) []).1.length := by
        rw [dispatchList_length]
        exact hil
      refine ⟨(dispatchList gp fuel h.ambulances (peekAll h.queue_) []).1.getD i
        Ambulance.default, ?_, hass⟩
      rw [← get_eq_getD hlen]
      exact List.get_mem _ _ _
  · intro e he
    have he2 : e ∈ s := by
      rw [← h1]
      exact he
    exact (peekAll_perm h.queue_).mem_iff.mp (h2.subset he2)
  · intro b rest2 hpk helig
    show List.Sublist (dispatchList gp fuel h.ambulances (peekAll h.queue_) []).2 rest2 ∧
      ∃ a ∈ (dispatchList gp fuel h.ambulances (peekAll h.queue_) []).1,
        a.status = Status.TO_SCENE ∧ a.assignedEmergencyId = b.id
    rw [hpk]
    exact dispatchList_head_matched gp fuel b rest2 h.ambulances helig

theorem claim_backlog_preserved_witness :
    List.Sublist ((dispatchVehicles cgp 9 cAfterReceive).queue_)
      (peekAll cAfterReceive.queue_) ∧
    peekAll ((dispatchVehicles cgp 9 cAfterReceive).queue_)
      = (dispatchVehicles cgp 9 cAfterReceive).queue_ ∧
    (∀ e ∈ cAfterReceive.queue_, e ∈ (dispatchVehicles cgp 9 cAfterReceive).queue_ ∨
      ∃ a ∈ (dispatchVehicles cgp 9 cAfterReceive).ambulances,
        a.assignedEmergencyId = e.id) ∧
    (∀ e ∈ (dispatchVehicles cgp 9 cAfterReceive).queue_, e ∈ cAfterReceive.queue_) ∧
    (∀ b rest2, peekAll cAfterReceive.queue_ = b :: rest2 →
      (∃ a ∈ cAfterReceive.ambulances, a.status = Status.IDLE ∧ a.busy = false) →
      List.Sublist ((dispatchVehicles cgp 9 cAfterReceive).queue_) rest2 ∧
      ∃ a ∈ (dispatchVehicles cgp 9 cAfterReceive).ambulances,
        a.status = Status.TO_SCENE ∧ a.assignedEmergencyId = b.id) :=
  claim_backlog_preserved cgp 9 cAfterReceive

/-- Two roster slots changed by the same dispatch pass end with distinct
assignments, provided the processed emergencies have distinct ids. -/
theorem dispatchList_distinct_new (gp : GridParams) (fuel : ℕ) :
    ∀ (ems : List Emergency) (ambs : List Ambulance) (bl : List Emergency)
      (i j : ℕ), i < ambs.length → j < ambs.length →
      (ems.map Emergency.id).Nodup → i ≠ j →
      (dispatchList gp fuel ambs ems bl).1.getD i Ambulance.default
        ≠ ambs.getD i Ambulance.default →
      (dispatchList gp fuel ambs ems bl).1.getD j Ambulance.default
        ≠ ambs.getD j Ambulance.default →
      ((dispatchList gp fuel ambs ems bl).1.getD i Ambulance.default).assignedEmergencyId
        ≠ ((dispatchList gp fuel ambs ems bl).1.getD j Ambulance.default).assignedEmergencyId := by
  intro ems
  induction ems with
  | nil =>
    intro ambs bl i j hi hj hnd hij hchi hchj
    exact absurd rfl hchi
  | cons em rest ih =>
    intro ambs bl i j hi hj hnd hij hchi hchj
    rw [List.map_cons] at hnd
    obtain ⟨hnotin, hndrest⟩ := List.nodup_cons.mp hnd
    cases hfn : findNearestAvailableAmbulance ambs em.location with
    | some k =>
      obtain ⟨hk, hkIdle, hkBusy, _⟩ := findNearest_some hfn
      have hgoal : dispatchList gp fuel ambs (em :: rest) bl =
          dispatchList gp fuel
            (ambs.set k (assignAmb gp fuel (ambs.getD k Ambulance.default) em))
            rest bl := by
        simp only [dispatchList]
        rw [hfn]
      rw [hgoal] at hchi hchj ⊢
      have hset : (ambs.set k (assignAmb gp fuel (ambs.getD k Ambulance.default) em)).getD k
          Ambulance.default = assignAmb gp fuel (ambs.getD k Ambulance.default) em :=
        getD_set_self hk
      have hRk : (dispatchList gp fuel
          (ambs.set k (assignAmb gp fuel (ambs.getD k Ambulance.default) em))
          rest bl).1.getD k Ambulance.default
          = assignAmb gp fuel (ambs.getD k Ambulance.default) em := by
        rcases dispatchList_get gp fuel rest
          (ambs.set k (assignAmb gp fuel (ambs.getD k Ambulance.default) em)) bl k
          (by simpa using hk) with hrec | ⟨em2, hem2, hstat, hbusy2, heq⟩
        · rw [hrec, hset]
        · rw [hset] at hstat
          have hf := (assignAmb_fields gp fuel (ambs.getD k Ambulance.default) em).1
          rw [hf] at hstat
          exact absurd hstat (by decide)
      have hchanged : ∀ (m : ℕ), m ≠ k → m < ambs.length →
          (dispatchList gp fuel
            (ambs.set k (assignAmb gp fuel (ambs.getD k Ambulance.default) em))
            rest bl).1.getD m Ambulance.default ≠ ambs.getD m Ambulance.default →
          ∃ em2 ∈ rest,
            ((dispatchList gp fuel
              (ambs.set k (assignAmb gp fuel (ambs.getD k Ambulance.default) em))
              rest bl).1.getD m Ambulance.default).assignedEmergencyId = em2.id := by
        intro m hmk hm hch
        have hsetm : (ambs.set k (assignAmb gp fuel (ambs.getD k Ambulance.default) em)).getD m
            Ambulance.default = ambs.getD m Ambulance.default :=
          getD_set_ne (fun hc => hmk hc.symm)
        rcases dispatchList_get gp fuel rest
          (ambs.set k (assignAmb gp fuel (ambs.getD k Ambulance.default) em)) bl m
          (by simpa using hm) with hrec | ⟨em2, hem2, hstat, hbusy2, heq⟩
        · rw [hsetm] at hrec
          exact absurd hrec hch
        · refine ⟨em2, hem2, ?_⟩
          rw [heq]
          exact (assignAmb_fields gp fuel _ em2).2.2
      by_cases hik : i = k
      · have hjk : j ≠ k := fun hc => hij (hik.trans hc.symm)
        obtain ⟨em2, hem2, hassj⟩ := hchanged j hjk hj hchj
        rw [hik, hRk, (assignAmb_fields gp fuel (ambs.getD k Ambulance.default) em).2.2,
          hassj]
        intro hc
        exact hnotin (hc ▸ List.mem_map_of_mem Emergency.id hem2)
      · by_cases hjk : j = k
        · obtain ⟨em2, hem2, hassi⟩ := hchanged i hik hi hchi
          rw [hjk, hRk, (assignAmb_fields gp fuel (ambs.getD k Ambulance.default) em).2.2,
            hassi]
          intro hc
          exact hnotin (hc.symm ▸ List.mem_map_of_mem Emergency.id hem2)
        · have hseti : (ambs.set k (assignAmb gp fuel (ambs.getD k Ambulance.default) em)).getD i
              Ambulance.default = ambs.getD i Ambulance.default :=
            getD_set_ne (fun hc => hik hc.symm)
          have hsetj : (ambs.set k (assignAmb gp fuel (ambs.getD k Ambulance.default) em)).getD j
              Ambulance.default = ambs.getD j Ambulance.default :=
            getD_set_ne (fun hc => hjk hc.symm)
          refine ih (ambs.set k (assignAmb gp fuel (ambs.getD k Ambulance.default) em)) bl i j
            (by simpa using hi) (by simpa using hj) hndrest hij ?_ ?_
          · rw [hseti]
            exact hchi
          · rw [hsetj]
            exact hchj
    | none =>
      have hgoal : dispatchList gp fuel ambs (em :: rest) bl =
          dispatchList gp fuel ambs rest (bl ++ [em]) := by
        simp only [dispatchList]
        rw [hfn]
      rw [hgoal] at hchi hchj ⊢
      exact ih ambs (bl ++ [em]) i j hi hj hndrest hij hchi hchj

/-- C2: within one dispatchVehicles call, the drain loop processes the
queue exactly in peekAll order, which is best-first (priority ascending,
then createdAt ascending); each emergency is matched by a scan that
returns an idle, non-busy vehicle of minimal straight-line (squared)
distance with the first roster index winning exact ties; every roster
slot changed by the pass was idle and non-busy at the start of the pass
and ends EnRoute carrying one of the processed emergencies (so a vehicle
claimed earlier is not idle and hence unavailable to later candidates);
and two slots changed in the same pass end with distinct assignments, so
no two emergencies of one pass receive the same vehicle. -/
theorem claim_dispatch_matching (gp : GridParams) (fuel : ℕ) :
    (∀ (ambs : List Ambulance) (q bl : List Emergency),
      drainDispatch gp fuel ambs q bl = dispatchList gp fuel ambs (peekAll q) bl ∧
      (peekAll q).Pairwise lexLe) ∧
    (∀ (ambs : List Ambulance) (t : Point) (i : ℕ),
      findNearestAvailableAmbulance ambs t = some i →
      ∃ hi : i < ambs.length,
        (ambs.get ⟨i, hi⟩).status = Status.IDLE ∧ (ambs.get ⟨i, hi⟩).busy = false ∧
        ∀ (j : ℕ) (hj : j < ambs.length),
          (ambs.get ⟨j, hj⟩).status = Status.IDLE → (ambs.get ⟨j, hj⟩).busy = false →
            distSq (ambs.get ⟨i, hi⟩).pos t ≤ distSq (ambs.get ⟨j, hj⟩).pos t ∧
            (distSq (ambs.get ⟨i, hi⟩).pos t = distSq (ambs.get ⟨j, hj⟩).pos t → i ≤ j)) ∧
    (∀ (ambs : List Ambulance) (ems bl : List Emergency) (i : ℕ),
      i < ambs.length →
      (dispatchList gp fuel ambs ems bl).1.getD i Ambulance.default
        ≠ ambs.getD i Ambulance.default →
      (ambs.getD i Ambulance.default).status = Status.IDLE ∧
      (ambs.getD i Ambulance.default).busy = false ∧
      ((dispatchList gp fuel ambs ems bl).1.getD i Ambulance.default).status
        = Status.TO_SCENE ∧
      ∃ em ∈ ems, (dispatchList gp fuel ambs ems bl).1.getD i Ambulance.default
        = assignAmb gp fuel (ambs.getD i Ambulance.default) em) ∧
    (∀ (ems : List Emergency) (ambs : List Ambulance) (bl : List Emergency)
      (i j : ℕ), i < ambs.length → j < ambs.length →
      (ems.map Emergency.id).Nodup → i ≠ j →
      (dispatchList gp fuel ambs ems bl).1.getD i Ambulance.default
        ≠ ambs.getD i Ambulance.default →
      (dispatchList gp fuel ambs ems bl).1.getD j Ambulance.default
        ≠ ambs.getD j Ambulance.default →
      ((dispatchList gp fuel ambs ems bl).1.getD i Ambulance.default).assignedEmergencyId
        ≠ ((dispatchList gp fuel ambs ems bl).1.getD j
            Ambulance.default).assignedEmergencyId) := by
  refine ⟨?_, ?_, ?_, dispatchList_distinct_new gp fuel⟩
  · intro ambs q bl
    exact ⟨drainDispatch_eq_dispatchList gp fuel ambs q bl, peekAll_sorted q⟩
  · intro ambs t i hfn
    exact findNearest_some hfn
  · intro ambs ems bl i hi hch
    rcases dispatchList_get gp fuel ems ambs bl i hi with hrec | ⟨em, hem, h1, h2, h3⟩
    · exact absurd hrec hch
    · refine ⟨h1, h2, ?_, em, hem, h3⟩
      rw [h3]
      exact (assignAmb_fields gp fuel (ambs.getD i Ambulance.default) em).1

theorem claim_dispatch_matching_witness :
    findNearestAvailableAmbulance [camb0] ⟨0, 0⟩ = some 0 ∧
    ∃ hi : 0 < ([camb0] : List Ambulance).length,
      (([camb0] : List Ambulance).get ⟨0, hi⟩).status = Status.IDLE ∧
      (([camb0] : List Ambulance).get ⟨0, hi⟩).busy = false ∧
      ∀ (j : ℕ) (hj : j < ([camb0] : List Ambulance).length),
        (([camb0] : List Ambulance).get ⟨j, hj⟩).status = Status.IDLE →
        (([camb0] : List Ambulance).get ⟨j, hj⟩).busy = false →
          distSq (([camb0] : List Ambulance).get ⟨0, hi⟩).pos ⟨0, 0⟩
            ≤ distSq (([camb0] : List Ambulance).get ⟨j, hj⟩).pos ⟨0, 0⟩ ∧
          (distSq (([camb0] : List Ambulance).get ⟨0, hi⟩).pos ⟨0, 0⟩
            = distSq (([camb0] : List Ambulance).get ⟨j, hj⟩).pos ⟨0, 0⟩ → 0 ≤ j) :=
  ⟨by decide, (claim_dispatch_matching cgp 9).2.1 [camb0] ⟨0, 0⟩ 0 (by decide)⟩

/-- C6: whenever findPathOnRoads produces a waypoint sequence, its first
element is the snapped start, its final element is the raw un-snapped end
point (not the snapped intersection), and the sequence has at least two
waypoints; in the degenerate case where start and end snap to the same
intersection the produced path is exactly [snappedStart, end] for every
fuel, so it still contains at least those two waypoints. -/
theorem claim_route_endpoints (gp : GridParams) :
    (∀ (fuel : ℕ) (s e : Point) (p : List Point),
      findPathOnRoads fuel s e gp = some p →
      p.head? = some (findNearestRoadPoint s gp) ∧
      p.getLast? = some e ∧ 2 ≤ p.length) ∧
    (∀ (fuel : ℕ) (s e : Point),
      findNearestRoadPoint s gp = findNearestRoadPoint e gp →
      findPathOnRoads fuel s e gp = some [findNearestRoadPoint s gp, e]) := by
  constructor
  · intro fuel s e p hp
    unfold findPathOnRoads at hp
    rcases Option.map_eq_some.mp hp with ⟨mids, _, hcons⟩
    rw [← hcons]
    refine ⟨rfl, ?_, ?_⟩
    · show (findNearestRoadPoint s gp :: (mids ++ [e])).getLast? = some e
      rw [← List.cons_append]
      exact List.getLast?_concat _
    · show 2 ≤ (findNearestRoadPoint s gp :: (mids ++ [e])).length
      simp
  · intro fuel s e hsnap
    have hb : buildPath fuel (findNearestRoadPoint s gp) (findNearestRoadPoint s gp)
        gp.blockSize = some [] := by
      cases fuel with
      | zero => norm_num [buildPath]
      | succ n => norm_num [buildPath]
    show (buildPath fuel (findNearestRoadPoint s gp) (findNearestRoadPoint e gp)
        gp.blockSize).map (fun mids => findNearestRoadPoint s gp :: (mids ++ [e]))
      = some [findNearestRoadPoint s gp, e]
    rw [← hsnap, hb]
    rfl

/-- Concrete route witnessing C6 on the scenario grid. -/
theorem claim_route_endpoints_witness :
    findPathOnRoads 9 ⟨0, 0⟩ ⟨0, 0⟩ cgp
      = some [findNearestRoadPoint ⟨0, 0⟩ cgp, ⟨0, 0⟩] ∧
    (findPathOnRoads 9 ⟨0, 0⟩ ⟨0, 0⟩ cgp = some [⟨0, 0⟩, ⟨0, 0⟩] →
      ([(⟨0, 0⟩ : Point), ⟨0, 0⟩] : List Point).head?
        = some (findNearestRoadPoint ⟨0, 0⟩ cgp)) :=
  ⟨(claim_route_endpoints cgp).2 9 ⟨0, 0⟩ ⟨0, 0⟩ rfl,
    fun hp => ((claim_route_endpoints cgp).1 9 ⟨0, 0⟩ ⟨0, 0⟩ [⟨0, 0⟩, ⟨0, 0⟩] hp).1⟩

theorem foldl_nearest_mem (t : Point) (S : List Point) :
    ∀ (l : List Point) (acc : ℚ × Point),
      (∀ x ∈ l, x ∈ S) →
      (acc.2 ∈ S ∨ ∃ p ∈ l, distSq t p < acc.1) →
      (l.foldl (fun acc inter =>
        if distSq t inter < acc.1 then (distSq t inter, inter) else acc) acc).2 ∈ S := by
  intro l
  induction l with
  | nil =>
    intro acc hsub hacc
    rcases hacc with h | ⟨p, hp, _⟩
    · exact h
    · simp at hp
  | cons x xs ih =>
    intro acc hsub hacc
    simp only [List.foldl_cons]
    by_cases hx : distSq t x < acc.1
    · rw [if_pos hx]
      exact ih (distSq t x, x) (fun y hy => hsub y (List.mem_cons_of_mem x hy))
        (Or.inl (hsub x (List.mem_cons_self x xs)))
    · rw [if_neg hx]
      refine ih acc (fun y hy => hsub y (List.mem_cons_of_mem x hy)) ?_
      rcases hacc with h | ⟨p, hp, hlt⟩
      · exact Or.inl h
      · rcases List.mem_cons.mp hp with hpx | hp2
        · rw [hpx] at hlt
          exact absurd hlt hx
        · exact Or.inr ⟨p, hp2, hlt⟩

/-- If the target lies within the 1e9 sentinel of the grid origin (which
is always an intersection), the snap returns a true intersection rather
than the raw target. -/
theorem snap_mem_intersections (gp : GridParams) (t : Point)
    (hclose : distSq t ⟨gp.startX, gp.startY⟩ < 10 ^ 18) :
    findNearestRoadPoint t gp ∈ intersections gp := by
  unfold findNearestRoadPoint
  refine foldl_nearest_mem t (intersections gp) (intersections gp)
    ((10 ^ 18 : ℚ), t) (fun x hx => hx) ?_
  right
  refine ⟨⟨gp.startX, gp.startY⟩, ?_, hclose⟩
  unfold intersections
  refine List.mem_flatMap.mpr ⟨0, ⟨List.mem_range.mpr (Nat.succ_pos _), ?_⟩⟩
  refine List.mem_map.mpr ⟨0, ⟨List.mem_range.mpr (Nat.succ_pos _), ?_⟩⟩
  norm_num

theorem mem_intersections_aligned {gp : GridParams} {p : Point}
    (hp : p ∈ intersections gp) :
    ∃ (i j : ℕ), p = ⟨gp.startX + (i : ℚ) * gp.blockSize,
      gp.startY + (j : ℚ) * gp.blockSize⟩ := by
  unfold intersections at hp
  obtain ⟨y, _, hp2⟩ := List.mem_flatMap.mp hp
  obtain ⟨x, _, hxy⟩ := List.mem_map.mp hp2
  exact ⟨x, y, hxy.symm⟩

theorem buildPath_succ (n : ℕ) (cur e : Point) (bs : ℚ) :
    buildPath (n + 1) cur e bs =
      if |cur.x - e.x| > 1 ∨ |cur.y - e.y| > 1 then
        ((buildPath n
          (if |cur.x - e.x| > 1 then
            ⟨cur.x + (if cur.x < e.x then bs else -bs), cur.y⟩
          else ⟨cur.x, cur.y + (if cur.y < e.y then bs else -bs)⟩) e bs).map
          (fun rest =>
            (if |cur.x - e.x| > 1 then
              ⟨cur.x + (if cur.x < e.x then bs else -bs), cur.y⟩
            else ⟨cur.x, cur.y + (if cur.y < e.y then bs else -bs)⟩) :: rest))
      else some [] := rfl

/-- Termination of the path loop on grid-aligned endpoints: the cursor
and the target are lattice points, every iteration moves the cursor one
whole cell toward the target along one axis, so the Manhattan index
distance bounds the number of iterations. -/
theorem buildPath_terminates (bs : ℚ) (hbs : 0 < bs) (sX sY : ℚ) :
    ∀ (n : ℕ) (a b c d : ℤ),
      (a - b).natAbs + (c - d).natAbs ≤ n →
      ∃ l, buildPath n ⟨sX + (a : ℚ) * bs, sY + (c : ℚ) * bs⟩
        ⟨sX + (b : ℚ) * bs, sY + (d : ℚ) * bs⟩ bs = some l := by
  intro n
  induction n with
  | zero =>
    intro a b c d hn
    have ha : a = b := by omega
    have hc : c = d := by omega
    refine ⟨[], ?_⟩
    norm_num [buildPath, ha, hc]
  | succ n ih =>
    intro a b c d hn
    have hdx : (sX + (a : ℚ) * bs) - (sX + (b : ℚ) * bs) = ((a - b : ℤ) : ℚ) * bs := by
      push_cast
      ring
    have hdy : (sY + (c : ℚ) * bs) - (sY + (d : ℚ) * bs) = ((c - d : ℤ) : ℚ) * bs := by
      push_cast
      ring
    have hxlt : ((sX + (a : ℚ) * bs) < (sX + (b : ℚ) * bs)) ↔ a < b := by
      rw [add_lt_add_iff_left, mul_lt_mul_right hbs, Int.cast_lt]
    have hylt : ((sY + (c : ℚ) * bs) < (sY + (d : ℚ) * bs)) ↔ c < d := by
      rw [add_lt_add_iff_left, mul_lt_mul_right hbs, Int.cast_lt]
    rw [buildPath_succ]
    dsimp only
    rw [hdx, hdy]
    by_cases h1 : |((a - b : ℤ) : ℚ) * bs| > 1
    · have hne : a ≠ b := by
        intro hc2
        rw [hc2, sub_self] at h1
        push_cast at h1
        simp at h1
        norm_num at h1
      rw [if_pos (Or.inl h1), if_pos h1]
      by_cases hab : a < b
      · rw [if_pos (hxlt.mpr hab)]
        have hx2 : sX + (a : ℚ) * bs + bs = sX + ((a + 1 : ℤ) : ℚ) * bs := by
          push_cast
          ring
        rw [hx2]
        obtain ⟨l, hl⟩ := ih (a + 1) b c d (by omega)
        rw [hl]
        exact ⟨_, rfl⟩
      · rw [if_neg (fun hc2 => hab (hxlt.mp hc2))]
        have hx2 : sX + (a : ℚ) * bs + -bs = sX + ((a - 1 : ℤ) : ℚ) * bs := by
          push_cast
          ring
        rw [hx2]
        have hba : b < a := by omega
        obtain ⟨l, hl⟩ := ih (a - 1) b c d (by omega)
        rw [hl]
        exact ⟨_, rfl⟩
    · by_cases h2 : |((c - d : ℤ) : ℚ) * bs| > 1
      · have hne : c ≠ d := by
          intro hc2
          rw [hc2, sub_self] at h2
          push_cast at h2
          simp at h2
          norm_num at h2
        rw [if_pos (Or.inr h2), if_neg h1]
        by_cases hcd : c < d
        · rw [if_pos (hylt.mpr hcd)]
          have hy2 : sY + (c : ℚ) * bs + bs = sY + ((c + 1 : ℤ) : ℚ) * bs := by
            push_cast
            ring
          rw [hy2]
          obtain ⟨l, hl⟩ := ih a b (c + 1) d (by omega)
          rw [hl]
          exact ⟨_, rfl⟩
        · rw [if_neg (fun hc2 => hcd (hylt.mp hc2))]
          have hy2 : sY + (c : ℚ) * bs + -bs = sY + ((c - 1 : ℤ) : ℚ) * bs := by
            push_cast
            ring
          rw [hy2]
          have hdc : d < c := by omega
          obtain ⟨l, hl⟩ := ih a b (c - 1) d (by omega)
          rw [hl]
          exact ⟨_, rfl⟩
      · rw [if_neg ?_]
        · exact ⟨[], rfl⟩
        · rintro (hcon | hcon)
          · exact h1 hcon
          · exact h2 hcon

/-- C8 (amended): for endpoints within the snapping sentinel range (the
raw claim quantifies over every input point, but beyond the 1e9 sentinel
the snap keeps the raw, un-aligned target and the loop can oscillate
forever — see the counterexample) and a positive cell size, both snapped
endpoints are lattice intersections and the path-construction loop of
findPathOnRoads terminates: some fuel makes the route function return a
waypoint list, i.e. the routing is total on in-range inputs. -/
theorem claim_route_total (gp : GridParams) (s e : Point)
    (hbs : 0 < gp.blockSize)
    (hs : distSq s ⟨gp.startX, gp.startY⟩ < 10 ^ 18)
    (he : distSq e ⟨gp.startX, gp.startY⟩ < 10 ^ 18) :
    findNearestRoadPoint s gp ∈ intersections gp ∧
    findNearestRoadPoint e gp ∈ intersections gp ∧
    ∃ (fuel : ℕ) (p : List Point), findPathOnRoads fuel s e gp = some p := by
  have hms := snap_mem_intersections gp s hs
  have hme := snap_mem_intersections gp e he
  refine ⟨hms, hme, ?_⟩
  obtain ⟨i1, j1, h1⟩ := mem_intersections_aligned hms
  obtain ⟨i2, j2, h2⟩ := mem_intersections_aligned hme
  obtain ⟨l, hl⟩ := buildPath_terminates gp.blockSize hbs gp.startX gp.startY
    (((i1 : ℤ) - i2).natAbs + ((j1 : ℤ) - j2).natAbs) i1 i2 j1 j2 (le_refl _)
  simp only [Int.cast_natCast] at hl
  refine ⟨((i1 : ℤ) - i2).natAbs + ((j1 : ℤ) - j2).natAbs,
    findNearestRoadPoint s gp :: (l ++ [e]), ?_⟩
  show (buildPath (((i1 : ℤ) - i2).natAbs + ((j1 : ℤ) - j2).natAbs)
      (findNearestRoadPoint s gp) (findNearestRoadPoint e gp) gp.blockSize).map
    (fun mids => findNearestRoadPoint s gp :: (mids ++ [e]))
    = some (findNearestRoadPoint s gp :: (l ++ [e]))
  rw [h1, h2, hl]
  rfl

theorem claim_route_total_witness :
    0 < cgp.blockSize ∧
    distSq ⟨1, 1⟩ ⟨cgp.startX, cgp.startY⟩ < 10 ^ 18 ∧
    distSq ⟨3, 5⟩ ⟨cgp.startX, cgp.startY⟩ < 10 ^ 18 ∧
    (findNearestRoadPoint ⟨1, 1⟩ cgp ∈ intersections cgp ∧
      findNearestRoadPoint ⟨3, 5⟩ cgp ∈ intersections cgp ∧
      ∃ (fuel : ℕ) (p : List Point), findPathOnRoads fuel ⟨1, 1⟩ ⟨3, 5⟩ cgp = some p) :=
  ⟨by norm_num [cgp], by norm_num [cgp, distSq], by norm_num [cgp, distSq],
    claim_route_total cgp ⟨1, 1⟩ ⟨3, 5⟩ (by norm_num [cgp])
      (by norm_num [cgp, distSq]) (by norm_num [cgp, distSq])⟩

theorem buildPath_zero (cur e : Point) (bs : ℚ) :
    buildPath 0 cur e bs =
      if |cur.x - e.x| > 1 ∨ |cur.y - e.y| > 1 then none else some [] := rfl

/-- A 1 by 1 road grid at the origin with cell size 4. -/
def gpFar : GridParams := ⟨0, 0, 4, 1, 1⟩

/-- A target at least 1e9 away from every intersection of gpFar whose x
coordinate is congruent to 2 modulo the cell size 4. -/
def eFar : Point := ⟨1000000006, 0⟩

/-- The x gap from any multiple of the cell size 4 to the far target is
congruent to 2 modulo 4, hence of absolute value at least 2. -/
theorem far_gap_big (k : ℤ) : |(k : ℚ) * 4 - 1000000006| > 1 := by
  have hm : (k : ℚ) * 4 - 1000000006 = ((4 * k - 1000000006 : ℤ) : ℚ) := by
    push_cast
    ring
  have h2 : (2 : ℤ) ≤ |4 * k - 1000000006| := by
    rcases abs_cases (4 * k - 1000000006 : ℤ) with ⟨he, hn⟩ | ⟨he, hn⟩ <;> omega
  rw [hm, ← Int.cast_abs]
  calc (1 : ℚ) < ((2 : ℤ) : ℚ) := by norm_num
    _ ≤ _ := Int.cast_le.mpr h2

/-- From any x position that is a multiple of the cell size 4, the
stepping loop towards the far target never terminates: the x gap stays
congruent to 2 modulo 4, so it is never within the tolerance 1, and each
step lands on another multiple of 4. -/
theorem buildPath_far_none :
    ∀ (fuel : ℕ) (k : ℤ),
      buildPath fuel ⟨(k : ℚ) * 4, 0⟩ ⟨1000000006, 0⟩ 4 = none := by
  intro fuel
  induction fuel with
  | zero =>
    intro k
    rw [buildPath_zero]
    dsimp only
    rw [if_pos (Or.inl (far_gap_big k))]
  | succ n ih =>
    intro k
    rw [buildPath_succ]
    dsimp only
    rw [if_pos (Or.inl (far_gap_big k)), if_pos (far_gap_big k)]
    by_cases hlt : (k : ℚ) * 4 < 1000000006
    · rw [if_pos hlt]
      have hx : (k : ℚ) * 4 + 4 = ((k + 1 : ℤ) : ℚ) * 4 := by
        push_cast
        ring
      rw [hx, ih (k + 1)]
      rfl
    · rw [if_neg hlt]
      have hx : (k : ℚ) * 4 + -4 = ((k - 1 : ℤ) : ℚ) * 4 := by
        push_cast
        ring
      rw [hx, ih (k - 1)]
      rfl

/-- C8 counterexample: the claim quantifies over every pair of input
points, but for the target (1000000006, 0) on the 1 by 1 grid gpFar every
intersection is at least 1e9 away, so the snap returns the raw target,
which is not a lattice intersection; the x gap from the snapped start
stays congruent to 2 modulo the cell size 4, so the stepping loop never
comes within the tolerance and findPathOnRoads returns none at every
fuel: on such inputs the router does not terminate. -/
theorem claim_route_total_counterexample :
    findNearestRoadPoint eFar gpFar = eFar ∧
    eFar ∉ intersections gpFar ∧
    (∀ fuel : ℕ, findPathOnRoads fuel ⟨0, 0⟩ eFar gpFar = none) := by
  have ht : findNearestRoadPoint eFar gpFar = eFar := by
    norm_num [findNearestRoadPoint, intersections, gpFar, eFar, List.range_succ, distSq]
  refine ⟨ht, ?_, ?_⟩
  · norm_num [intersections, gpFar, eFar, List.range_succ, Point.mk.injEq]
  · intro fuel
    have hs : findNearestRoadPoint ⟨0, 0⟩ gpFar = ⟨0, 0⟩ := by
      norm_num [findNearestRoadPoint, intersections, gpFar, List.range_succ, distSq]
    show (buildPath fuel (findNearestRoadPoint ⟨0, 0⟩ gpFar)
        (findNearestRoadPoint eFar gpFar) gpFar.blockSize).map
      (fun mids => findNearestRoadPoint ⟨0, 0⟩ gpFar :: (mids ++ [eFar])) = none
    rw [hs, ht]
    have hb : buildPath fuel ⟨0, 0⟩ ⟨1000000006, 0⟩ 4 = none := by
      have h := buildPath_far_none fuel 0
      have h0 : ((0 : ℤ) : ℚ) * 4 = 0 := by norm_num
      rw [h0] at h
      exact h
    show (buildPath fuel ⟨0, 0⟩ ⟨1000000006, 0⟩ 4).map
      (fun mids => (⟨0, 0⟩ : Point) :: (mids ++ [eFar])) = none
    rw [hb]
    rfl
